import Mathlib

/-!
# Load driver of `bench/main.go`

A shallow embedding of the benchmark driver: the data model (`Event`,
`LoginMsg`, `Range`, `ChangeMsg`), the script one simulated client runs, and
the driver that launches the clients, waits for them and prints the tally.

Everything the program cannot decide by itself is an input of the model:

* the outcome of every fallible call (`Dial`, `WriteJSON`, `WriteMessage`) and
  the readings of `time.Now().UnixNano()` are given by an `Env`, one per client;
* the order in which the goroutines run is given by a schedule.

A client task is the list of the actions it performs, in order.
-/

namespace Bench

/-! ## Data model (main.go, lines 15-45) -/

/-- Envelope `Event` of main.go. -/
structure Event where
  username : String
  session : String
  event : String
  data : String
  ts : Int
  deriving DecidableEq, Repr

/-- Payload `LoginMsg` of main.go. -/
structure LoginMsg where
  username : String
  sessionID : String
  deriving DecidableEq, Repr

/-- Position `Range` of main.go. -/
structure Range where
  row : Int
  column : Int
  deriving DecidableEq, Repr

/-- Payload `ChangeMsg` of main.go; the pointer field `ID *int` is an `Option`,
`none` being the nil pointer. The field `End` is named `stop` here. -/
structure ChangeMsg where
  id : Option Int
  action : String
  start : Range
  stop : Range
  lines : List String
  deriving DecidableEq, Repr

/-- Constant `SESSION_ID`. -/
def SESSION_ID : String := "__bench_test"

/-- The verb `%d` of package fmt applied to a loop index, which is never negative. -/
def fmtD (n : Nat) : String := Nat.repr n

/-- The call `fmt.Sprintf(USERNAME, i)` for the constant `USERNAME = "__test_%d"`. -/
def USERNAME (i : Nat) : String := "__test_" ++ fmtD i

/-- Constant `N`: the number of clients and the number of changes of a batch. -/
def N : Nat := 100

/-! ## JSON encoding of the two payloads (package encoding/json) -/

/-- Hexadecimal digit, lower case. -/
def hexDigit (n : Nat) : Char :=
  if n < 10 then Char.ofNat (48 + n) else Char.ofNat (87 + n)

/-- Escape of one character inside a JSON string, as `json.Marshal` writes it
(HTML escaping on, which is the default; control characters other than line
feed, carriage return and tab in the `\u00XX` form). -/
def jsonEscapeChar (c : Char) : List Char :=
  if c = '"' then ['\\', '"']
  else if c = '\\' then ['\\', '\\']
  else if c = '\n' then ['\\', 'n']
  else if c = '\r' then ['\\', 'r']
  else if c = '\t' then ['\\', 't']
  else if c.toNat < 32 ∨ c = '<' ∨ c = '>' ∨ c = '&' then
    ['\\', 'u', '0', '0', hexDigit (c.toNat / 16), hexDigit (c.toNat % 16)]
  else if c.toNat = 0x2028 then ['\\', 'u', '2', '0', '2', '8']
  else if c.toNat = 0x2029 then ['\\', 'u', '2', '0', '2', '9']
  else [c]

/-- A Go string as a JSON string literal. -/
def jsonString (s : String) : String :=
  "\"" ++ String.mk (s.data.flatMap jsonEscapeChar) ++ "\""

/-- A Go `int` as a JSON number. -/
def jsonInt (n : Int) : String := toString n

/-- The elements of a JSON array, separated by commas. -/
def jsonElems : List String → String
  | [] => ""
  | [x] => x
  | x :: y :: rest => x ++ "," ++ jsonElems (y :: rest)

/-- The call `json.Marshal(LoginMsg ...)`, fields in declaration order under their tags. -/
def marshalLoginMsg (m : LoginMsg) : String :=
  "\x7b\"username\":" ++ jsonString m.username ++
  ",\"session_id\":" ++ jsonString m.sessionID ++ "\x7d"

/-- JSON object of a `Range`. -/
def marshalRange (r : Range) : String :=
  "\x7b\"row\":" ++ jsonInt r.row ++ ",\"column\":" ++ jsonInt r.column ++ "\x7d"

/-- The call `json.Marshal(ChangeMsg ...)`; a nil `ID` is written `null`. -/
def marshalChangeMsg (m : ChangeMsg) : String :=
  "\x7b\"id\":" ++ (match m.id with | some v => jsonInt v | none => "null") ++
  ",\"action\":" ++ jsonString m.action ++
  ",\"start\":" ++ marshalRange m.start ++
  ",\"end\":" ++ marshalRange m.stop ++
  ",\"lines\":[" ++ jsonElems (m.lines.map jsonString) ++ "]\x7d"

/-! ## What a client task does: frames, log lines, actions -/

/-- A frame handed to the connection: a JSON text frame (`WriteJSON`) or a
close control frame (`WriteMessage(websocket.CloseMessage, FormatCloseMessage(code, text))`). -/
inductive Frame where
  | json (e : Event)
  | close (code : Nat) (text : String)
  deriving DecidableEq, Repr

/-- Constant `websocket.CloseNormalClosure`. -/
def CloseNormalClosure : Nat := 1000

/-- One call of `fmt.Printf`, named after its format string. -/
inductive LogLine where
  | connectionString (url : String)
  | connectError (i : Nat) (err : String)
  | writeLoginError (i : Nat) (err : String)
  | loggedIn (i : Nat)
  | writeChangeError (i : Nat) (err : String)
  | sentChange (i j bytes : Nat)
  | closeError (i : Nat) (err : String)
  | tally (ok : Int) (n : Nat)
  deriving DecidableEq, Repr

/-- The text a `fmt.Printf` call writes to standard output. -/
def LogLine.render : LogLine → String
  | .connectionString url => "Connection string: " ++ url ++ "\n"
  | .connectError i err => fmtD i ++ ": connect error = " ++ err ++ "\n"
  | .writeLoginError i err => fmtD i ++ ": write login error = " ++ err ++ "\n"
  | .loggedIn i => fmtD i ++ ": logged in\n"
  | .writeChangeError i err => fmtD i ++ ": write change error = " ++ err ++ "\n"
  | .sentChange i j bytes =>
      fmtD i ++ " (" ++ fmtD j ++ "): sent change, " ++ fmtD bytes ++ " bytes\n"
  | .closeError i err => fmtD i ++ ": close error = " ++ err ++ "\n"
  | .tally ok n => toString ok ++ " / " ++ fmtD n ++ "\n"

/-- The lines that report a failed step. -/
def LogLine.isError : LogLine → Bool
  | .connectError _ _ => true
  | .writeLoginError _ _ => true
  | .writeChangeError _ _ => true
  | .closeError _ _ => true
  | _ => false

/-- One observable action of a client task. The flag of `dial` and `write`
tells whether the call returned a nil error. -/
inductive Action where
  | dial (url : String) (ok : Bool)
  | write (f : Frame) (ok : Bool)
  | log (l : LogLine)
  | sleep (ns : Nat)
  | addOk
  | closeConn
  deriving DecidableEq, Repr

/-- Durations of package time, in nanoseconds. -/
def Millisecond : Nat := 1000000
/-- One second in nanoseconds. -/
def Second : Nat := 1000 * Millisecond
/-- One minute in nanoseconds. -/
def Minute : Nat := 60 * Second

/-- What the outside world answers to one client: the error text of the dial
(`none` when it succeeds), the error text of the write number `k` on the
connection, counted from 0 in the order the script issues them, and the
reading number `k` of `time.Now().UnixNano()`. -/
structure Env where
  dial : Option String
  write : Nat → Option String
  now : Nat → Int

/-- The value of `u.String()` for `url.URL{Scheme: "wss", Host: addr}`. -/
def connectionString (addr : String) : String := "wss://" ++ addr

/-! ## The client task (main.go, lines 61-162) -/

/-- The login envelope, lines 72-83. -/
def loginEvent (i : Nat) (ts : Int) : Event :=
  let data := marshalLoginMsg { username := USERNAME i, sessionID := SESSION_ID }
  { username := USERNAME i, session := SESSION_ID, event := "login", data := data, ts := ts }

/-- The payload of the first loop, lines 95-103. -/
def firstChangeMsg (i j : Nat) : ChangeMsg :=
  let text := "message (" ++ fmtD i ++ ", " ++ fmtD j ++ ")"
  { id := some (i : Int), action := "insert", start := { row := 0, column := 0 },
    stop := { row := 1, column := 0 }, lines := [text, ""] }

/-- The envelope of the first loop, lines 105-111. -/
def firstChangeEvent (i j : Nat) (ts : Int) : Event :=
  { username := USERNAME i, session := SESSION_ID, event := "change",
    data := marshalChangeMsg (firstChangeMsg i j), ts := ts }

/-- The payload of the second loop, lines 126-134. -/
def secondChangeMsg (i j : Nat) : ChangeMsg :=
  let text := "message (" ++ fmtD i ++ ", " ++ fmtD j ++ ")"
  { id := some (i : Int), action := "insert", start := { row := 0, column := 0 },
    stop := { row := 1, column := 0 }, lines := [text, ""] }

/-- The envelope of the second loop, lines 136-142. -/
def secondChangeEvent (i j : Nat) (ts : Int) : Event :=
  { username := USERNAME i, session := SESSION_ID, event := "change",
    data := marshalChangeMsg (secondChangeMsg i j), ts := ts }

/-- The loop of lines 94-121 from loop variable `j` on, with `fuel = N - j`
iterations left. The flag is `false` when the body returned from the task. -/
def firstBatch (env : Env) (i : Nat) : Nat → Nat → List Action × Bool
  | 0, _ => ([], true)
  | fuel + 1, j =>
    let changeData := marshalChangeMsg (firstChangeMsg i j)
    let change := firstChangeEvent i j (env.now (1 + j))
    match env.write (1 + j) with
    | some err => ([.write (.json change) false, .log (.writeChangeError i err)], false)
    | none =>
      let r := firstBatch env i fuel (j + 1)
      (.write (.json change) true :: .log (.sentChange i j changeData.utf8ByteSize) ::
        .sleep (100 * Millisecond) :: r.1, r.2)

/-- The loop of lines 125-152, likewise. -/
def secondBatch (env : Env) (i : Nat) : Nat → Nat → List Action × Bool
  | 0, _ => ([], true)
  | fuel + 1, j =>
    let changeData := marshalChangeMsg (secondChangeMsg i j)
    let change := secondChangeEvent i j (env.now (1 + N + j))
    match env.write (1 + N + j) with
    | some err => ([.write (.json change) false, .log (.writeChangeError i err)], false)
    | none =>
      let r := secondBatch env i fuel (j + 1)
      (.write (.json change) true :: .log (.sentChange i j changeData.utf8ByteSize) ::
        .sleep (1 * Second) :: r.1, r.2)

/-- Lines 154-161: the last sleep, the close frame, the counter. -/
def closing (env : Env) (i : Nat) : List Action :=
  .sleep (1 * Minute) ::
    match env.write (1 + N + N) with
    | some err => [.write (.close CloseNormalClosure "") false, .log (.closeError i err)]
    | none => [.write (.close CloseNormalClosure "") true, .addOk]

/-- Lines 123-161: after the first loop. -/
def afterFirstBatch (env : Env) (i : Nat) : List Action :=
  .sleep (1 * Minute) ::
    match secondBatch env i N 0 with
    | (tr, false) => tr
    | (tr, true) => tr ++ closing env i

/-- Lines 72-161: the task between `defer c.Close()` and its return. -/
def connected (env : Env) (i : Nat) : List Action :=
  let login := loginEvent i (env.now 0)
  match env.write 0 with
  | some err => [.write (.json login) false, .log (.writeLoginError i err)]
  | none =>
    .write (.json login) true :: .log (.loggedIn i) :: .sleep (5 * Second) ::
      match firstBatch env i N 0 with
      | (tr, false) => tr
      | (tr, true) => tr ++ afterFirstBatch env i

/-- The goroutine of client `i`, lines 61-162, up to the deferred `wg.Done()`:
the deferred `c.Close()` runs at every return that follows a successful dial. -/
def clientTask (addr : String) (env : Env) (i : Nat) : List Action :=
  match env.dial with
  | some err => [.dial (connectionString addr) false, .log (.connectError i err)]
  | none => .dial (connectionString addr) true :: (connected env i ++ [.closeConn])

/-! ## The driver (main.go, lines 47-168)

The goroutines run interleaved. A world is the state of the whole process;
a schedule names, step after step, who moves: `main` or the goroutine of one
client. A move that is not possible (a goroutine that is not launched or has
returned, `wg.Wait()` while the counter is not zero) yields `none`. -/

/-- Something observable, with its author: a line printed by `main`, or an
action of the goroutine of client `k`. -/
inductive Obs where
  | main (l : LogLine)
  | client (k : Nat) (a : Action)
  deriving DecidableEq, Repr

/-- Who moves next. -/
inductive Who where
  | main
  | client (k : Nat)
  deriving DecidableEq, Repr

/-- State of the process. `i` is the loop variable of `main` (the number of
goroutines launched so far), `wg` the counter of the `sync.WaitGroup`, `ok` the
success counter. `tasks[k]` is what goroutine `k` has still to do before its
deferred `wg.Done()`, and `none` once `wg.Done()` has run. `exited` is set when
`main` has printed the tally and returned. -/
structure World where
  i : Nat
  wg : Int
  ok : Int
  tasks : List (Option (List Action))
  events : List Obs
  exited : Bool
  deriving DecidableEq, Repr

/-- Lines 48-54: `main` up to the loop. -/
def start (addr : String) : World :=
  { i := 0, wg := 0, ok := 0, tasks := [],
    events := [.main (.connectionString (connectionString addr))], exited := false }

/-- One move of the process with `n` clients (`n` is the constant `N` in main.go).

`main`: inside the loop, `wg.Add(1)` and `go func()`; past the loop, `wg.Wait()`
returns only when the counter is zero, then the tally is printed and `main` returns.

Goroutine `k`: its next action (`atomic.AddInt64(&ok, 1)` adds one to `ok`);
when no action is left, its deferred `wg.Done()`. -/
def step (n : Nat) (addr : String) (envs : Nat → Env) : Who → World → Option World
  | .main, w =>
    if w.exited then none
    else if w.i < n then
      some { w with wg := w.wg + 1, tasks := w.tasks ++ [some (clientTask addr (envs w.i) w.i)],
                    i := w.i + 1 }
    else if w.wg = 0 then
      some { w with events := w.events ++ [.main (.tally w.ok n)], exited := true }
    else none
  | .client k, w =>
    match w.tasks[k]? with
    | some (some (a :: rest)) =>
      some { w with tasks := w.tasks.set k (some rest), events := w.events ++ [.client k a],
                    ok := if a = .addOk then w.ok + 1 else w.ok }
    | some (some []) => some { w with tasks := w.tasks.set k none, wg := w.wg - 1 }
    | _ => none

/-- The world a schedule leads to, `none` if one of its moves is not possible. -/
def exec (n : Nat) (addr : String) (envs : Nat → Env) : List Who → World → Option World
  | [], w => some w
  | who :: rest, w =>
    match step n addr envs who w with
    | some w1 => exec n addr envs rest w1
    | none => none

/-- The actions of client `k` among the observations, in order. -/
def actionsOf (k : Nat) : List Obs → List Action
  | [] => []
  | .client c a :: rest => if c = k then a :: actionsOf k rest else actionsOf k rest
  | .main _ :: rest => actionsOf k rest

/-- Whether an observation is a tally line of `main`. -/
def Obs.isTally : Obs → Bool
  | .main (.tally _ _) => true
  | _ => false

/-! ## Reading a task: frames, log lines, counter -/

/-- Every step of the client succeeds: the dial and the 202 writes. -/
def Env.allOk (env : Env) : Bool :=
  env.dial.isNone && (List.range (2 + N + N)).all (fun k => (env.write k).isNone)

/-- The frames written with success. -/
def written : List Action → List Frame
  | [] => []
  | .write f true :: rest => f :: written rest
  | _ :: rest => written rest

/-- The frames whose write was attempted. -/
def attempted : List Action → List Frame
  | [] => []
  | .write f _ :: rest => f :: attempted rest
  | _ :: rest => attempted rest

/-- The lines logged. -/
def logged : List Action → List LogLine
  | [] => []
  | .log l :: rest => l :: logged rest
  | _ :: rest => logged rest

/-- The number of increments of the success counter. -/
def increments (tr : List Action) : Nat := tr.count .addOk

/-! ## The script as the specification lists it -/

/-- A successful round `j` of the first loop: the write, the progress line, the pause. -/
def firstRound (env : Env) (i j : Nat) : List Action :=
  [.write (.json (firstChangeEvent i j (env.now (1 + j)))) true,
   .log (.sentChange i j (marshalChangeMsg (firstChangeMsg i j)).utf8ByteSize),
   .sleep (100 * Millisecond)]

/-- A successful round `j` of the second loop. -/
def secondRound (env : Env) (i j : Nat) : List Action :=
  [.write (.json (secondChangeEvent i j (env.now (1 + N + j)))) true,
   .log (.sentChange i j (marshalChangeMsg (secondChangeMsg i j)).utf8ByteSize),
   .sleep (1 * Second)]

/-- The 202 frames of a full script, in the order of the specification: the
login, the first batch, the second batch, the close frame. -/
def fullScript (env : Env) (i : Nat) : List Frame :=
  [.json (loginEvent i (env.now 0))] ++
  (List.range N).map (fun j => .json (firstChangeEvent i j (env.now (1 + j)))) ++
  (List.range N).map (fun j => .json (secondChangeEvent i j (env.now (1 + N + j)))) ++
  [.close CloseNormalClosure ""]

/-- The error line of the write number `k` (from 1) of client `i`. -/
def errorLine (i k : Nat) (err : String) : LogLine :=
  if k = 1 then .writeLoginError i err
  else if k ≤ 1 + N + N then .writeChangeError i err
  else .closeError i err

/-- A loop with early return, as both change loops are: round `j` consults
`wr j`, performs `bad j err` and returns from the task on an error, performs
`good j` and goes on otherwise. -/
def loopG (wr : Nat → Option String) (good : Nat → List Action)
    (bad : Nat → String → List Action) : Nat → Nat → List Action × Bool
  | 0, _ => ([], true)
  | fuel + 1, j =>
    match wr j with
    | some err => (bad j err, false)
    | none => (good j ++ (loopG wr good bad fuel (j + 1)).1, (loopG wr good bad fuel (j + 1)).2)

/-! ## Invariant of the driver -/

/-- What a goroutine has still to do. -/
def pending : Option (List Action) → List Action
  | some l => l
  | none => []

/-- One for a goroutine whose `wg.Done()` has not run, zero otherwise. -/
def live : Option (List Action) → Nat
  | some _ => 1
  | none => 0

/-- The number of launched goroutines whose `wg.Done()` has not run. -/
def running (tasks : List (Option (List Action))) : Nat := (tasks.map live).sum

/-- The sum of a weight over a list of actions. -/
def weight (f : Action → Nat) (l : List Action) : Nat := (l.map f).sum

/-- The sum of a weight over the client actions observed. -/
def obsWeight (f : Action → Nat) : List Obs → Nat
  | [] => 0
  | .client _ a :: rest => f a + obsWeight f rest
  | .main _ :: rest => obsWeight f rest

/-- The sum of a weight over what the launched goroutines have still to do. -/
def pendingWeight (f : Action → Nat) (tasks : List (Option (List Action))) : Nat :=
  (tasks.map (fun t => weight f (pending t))).sum

/-- The sum of a weight over the whole tasks of the clients below `i`. -/
def launchedWeight (f : Action → Nat) (addr : String) (envs : Nat → Env) : Nat → Nat
  | 0 => 0
  | i + 1 => launchedWeight f addr envs i + weight f (clientTask addr (envs i) i)

/-- Weight one on the increment of the success counter. -/
def addOkWeight (a : Action) : Nat := if a = .addOk then 1 else 0

/-- Weight one on a connect-error line. -/
def connectErrorWeight : Action → Nat
  | .log (.connectError _ _) => 1
  | _ => 0

/-- The number of clients all of whose steps succeed, among the first `n`. -/
def successes (n : Nat) (envs : Nat → Env) : Nat :=
  ((List.range n).filter (fun k => (envs k).allOk)).length

/-- The number of moves needed by the `d` goroutines from `i` on, none of them
launched yet: for each the launch, its actions, its `wg.Done()`. -/
def launchCost (addr : String) (envs : Nat → Env) : Nat → Nat → Nat
  | 0, _ => 0
  | d + 1, i => 2 + (clientTask addr (envs i) i).length + launchCost addr envs d (i + 1)

/-- The number of moves the process has still to make: those of the goroutines
not yet launched, the remaining actions and the `wg.Done()` of every goroutine
that has not returned, and the tally. -/
def movesLeft (n : Nat) (addr : String) (envs : Nat → Env) (w : World) : Nat :=
  launchCost addr envs (n - w.i) w.i +
  (w.tasks.map (fun t => live t + (pending t).length)).sum +
  (if w.exited then 0 else 1)

/-- Whether an observation is a connect-error line of a client. -/
def Obs.isConnectError : Obs → Bool
  | .client _ (.log (.connectError _ _)) => true
  | _ => false

/-- What holds of every world a schedule leads to. -/
structure Inv (n : Nat) (addr : String) (envs : Nat → Env) (w : World) : Prop where
  len : w.tasks.length = w.i
  le : w.i ≤ n
  wg : w.wg = (running w.tasks : Int)
  ok : w.ok = (obsWeight addOkWeight w.events : Int)
  weight : ∀ f, obsWeight f w.events + pendingWeight f w.tasks = launchedWeight f addr envs w.i
  acts : ∀ k, k < w.i →
    actionsOf k w.events ++ pending (w.tasks[k]?.getD none) = clientTask addr (envs k) k
  idle : ∀ k, w.i ≤ k → actionsOf k w.events = []
  noTally : w.exited = false → ∀ o, o ∈ w.events → o.isTally = false
  done : w.exited = true → w.i = n ∧ running w.tasks = 0 ∧
    ∃ pre, w.events = pre ++ [.main (.tally w.ok n)] ∧ ∀ o, o ∈ pre → o.isTally = false

/-! ## Reading a decimal rendering back -/

/-- The value of a decimal digit. -/
def digitValue (c : Char) : Nat := c.toNat - 48

/-- The number a list of decimal digits stands for. -/
def decimalValue (cs : List Char) : Nat := cs.foldl (fun acc c => 10 * acc + digitValue c) 0

/-- Whether a character is a decimal digit. -/
def isDigit (c : Char) : Bool := 48 ≤ c.toNat && c.toNat ≤ 57

/-! ## Inputs used as examples -/

/-- Every connection is refused. -/
def envRefused : Env :=
  { dial := some "connection refused", write := fun _ => none, now := fun k => (k : Int) }

/-- The server accepts everything. -/
def envGood : Env :=
  { dial := none, write := fun _ => none, now := fun k => (k : Int) }

/-- The server closes the connection after the login: the next write fails. -/
def envDropped : Env :=
  { dial := none, write := fun k => if k = 1 then some "broken pipe" else none,
    now := fun k => (k : Int) }

/-- The server closes the connection after the first change, and the wall clock
is set back by ten seconds while the task sleeps after the login: the reading
taken for the login is later than the readings taken afterwards. -/
def envSteppedBack : Env :=
  { dial := none, write := fun k => if k = 2 then some "broken pipe" else none,
    now := fun k => if k = 0 then 1700000010000000000 else 1700000005000000000 + (k : Int) }

/-- Whether an action is a step of the script: the dial, a write, a sleep. -/
def Action.isStep : Action → Bool
  | .dial _ _ => true
  | .write _ _ => true
  | .sleep _ => true
  | _ => false

/-- The schedule of one client whose connection is refused: launch, dial, log
line, `wg.Done()`, tally. -/
def refusedSchedule : List Who := [.main, .client 0, .client 0, .client 0, .main]

/-- The world the schedule `refusedSchedule` ends in. -/
def refusedWorld : World :=
  { i := 1, wg := 0, ok := 0, tasks := [none],
    events := [.main (.connectionString "wss://localhost:1337"),
               .client 0 (.dial "wss://localhost:1337" false),
               .client 0 (.log (.connectError 0 "connection refused")),
               .main (.tally 0 1)],
    exited := true }

/-! ## Lemmas on the loops -/

theorem flatMap_range_succ {α : Type} (g : Nat → List α) (n j : Nat) :
    (List.range (n + 1)).flatMap (fun m => g (j + m)) =
      g j ++ (List.range n).flatMap (fun m => g (j + 1 + m)) := by
  rw [List.range_succ_eq_map, List.flatMap_cons, List.flatMap_map]
  congr 1
  congr 1
  funext m
  show g (j + (m + 1)) = g (j + 1 + m)
  congr 1
  omega

theorem loopG_ok (wr : Nat → Option String) (good : Nat → List Action)
    (bad : Nat → String → List Action) :
    ∀ (fuel j : Nat), (∀ m, m < fuel → wr (j + m) = none) →
      loopG wr good bad fuel j = ((List.range fuel).flatMap (fun m => good (j + m)), true) := by
  intro fuel
  induction fuel with
  | zero => intro j _; rfl
  | succ fuel ih =>
    intro j h
    have h0 : wr j = none := by simpa using h 0 (Nat.succ_pos _)
    have h1 : ∀ m, m < fuel → wr (j + 1 + m) = none := by
      intro m hm
      have := h (m + 1) (Nat.succ_lt_succ hm)
      rwa [show j + 1 + m = j + (m + 1) by omega]
    rw [flatMap_range_succ]
    simp only [loopG, h0, ih (j + 1) h1]

theorem loopG_fail (wr : Nat → Option String) (good : Nat → List Action)
    (bad : Nat → String → List Action) (err : String) :
    ∀ (m fuel j : Nat), m < fuel → (∀ x, x < m → wr (j + x) = none) → wr (j + m) = some err →
      loopG wr good bad fuel j =
        ((List.range m).flatMap (fun x => good (j + x)) ++ bad (j + m) err, false) := by
  intro m
  induction m with
  | zero =>
    intro fuel j hf _ he
    obtain ⟨fuel, rfl⟩ : ∃ f, fuel = f + 1 := ⟨fuel - 1, by omega⟩
    have he0 : wr j = some err := by simpa using he
    simp [loopG, he0]
  | succ m ih =>
    intro fuel j hf h he
    obtain ⟨fuel, rfl⟩ : ∃ f, fuel = f + 1 := ⟨fuel - 1, by omega⟩
    have h0 : wr j = none := by simpa using h 0 (Nat.succ_pos _)
    have h1 : ∀ x, x < m → wr (j + 1 + x) = none := by
      intro x hx
      have := h (x + 1) (Nat.succ_lt_succ hx)
      rwa [show j + 1 + x = j + (x + 1) by omega]
    have he1 : wr (j + 1 + m) = some err := by
      rwa [show j + 1 + m = j + (m + 1) by omega]
    rw [flatMap_range_succ]
    simp only [loopG, h0, ih fuel (j + 1) (by omega) h1 he1, List.append_assoc]
    rw [show j + 1 + m = j + (m + 1) by omega]

theorem firstBatch_eq_loopG (env : Env) (i : Nat) :
    ∀ (fuel j : Nat), firstBatch env i fuel j =
      loopG (fun j => env.write (1 + j)) (firstRound env i)
        (fun j err => [.write (.json (firstChangeEvent i j (env.now (1 + j)))) false,
                       .log (.writeChangeError i err)]) fuel j := by
  intro fuel
  induction fuel with
  | zero => intro j; rfl
  | succ fuel ih =>
    intro j
    simp only [firstBatch, loopG, ih (j + 1)]
    cases env.write (1 + j) <;> simp [firstRound]

theorem secondBatch_eq_loopG (env : Env) (i : Nat) :
    ∀ (fuel j : Nat), secondBatch env i fuel j =
      loopG (fun j => env.write (1 + N + j)) (secondRound env i)
        (fun j err => [.write (.json (secondChangeEvent i j (env.now (1 + N + j)))) false,
                       .log (.writeChangeError i err)]) fuel j := by
  intro fuel
  induction fuel with
  | zero => intro j; rfl
  | succ fuel ih =>
    intro j
    simp only [secondBatch, loopG, ih (j + 1)]
    cases env.write (1 + N + j) <;> simp [secondRound]

/-! ## The task, by the first step that fails -/

theorem clientTask_dialFail (addr : String) (env : Env) (i : Nat) (err : String)
    (hd : env.dial = some err) :
    clientTask addr env i =
      [.dial (connectionString addr) false, .log (.connectError i err)] := by
  simp [clientTask, hd]

theorem clientTask_loginFail (addr : String) (env : Env) (i : Nat) (err : String)
    (hd : env.dial = none) (h0 : env.write 0 = some err) :
    clientTask addr env i =
      [.dial (connectionString addr) true, .write (.json (loginEvent i (env.now 0))) false,
       .log (.writeLoginError i err), .closeConn] := by
  simp [clientTask, hd, connected, h0]

theorem clientTask_firstFail (addr : String) (env : Env) (i m : Nat) (err : String)
    (hd : env.dial = none) (hm : m < N) (hprev : ∀ k, k < 1 + m → env.write k = none)
    (hfail : env.write (1 + m) = some err) :
    clientTask addr env i =
      [.dial (connectionString addr) true, .write (.json (loginEvent i (env.now 0))) true,
       .log (.loggedIn i), .sleep (5 * Second)] ++
      (List.range m).flatMap (firstRound env i) ++
      [.write (.json (firstChangeEvent i m (env.now (1 + m)))) false,
       .log (.writeChangeError i err), .closeConn] := by
  have h0 : env.write 0 = none := hprev 0 (by omega)
  have hb := loopG_fail (fun j => env.write (1 + j)) (firstRound env i)
    (fun j err => [.write (.json (firstChangeEvent i j (env.now (1 + j)))) false,
                   .log (.writeChangeError i err)]) err m N 0 hm
    (fun x hx => by simpa using hprev (1 + x) (by omega)) (by simpa using hfail)
  simp only [Nat.zero_add] at hb
  simp [clientTask, hd, connected, h0, firstBatch_eq_loopG, hb]

theorem clientTask_secondFail (addr : String) (env : Env) (i m : Nat) (err : String)
    (hd : env.dial = none) (hm : m < N) (hprev : ∀ k, k < 1 + N + m → env.write k = none)
    (hfail : env.write (1 + N + m) = some err) :
    clientTask addr env i =
      [.dial (connectionString addr) true, .write (.json (loginEvent i (env.now 0))) true,
       .log (.loggedIn i), .sleep (5 * Second)] ++
      (List.range N).flatMap (firstRound env i) ++ [.sleep (1 * Minute)] ++
      (List.range m).flatMap (secondRound env i) ++
      [.write (.json (secondChangeEvent i m (env.now (1 + N + m)))) false,
       .log (.writeChangeError i err), .closeConn] := by
  have h0 : env.write 0 = none := hprev 0 (by omega)
  have ha := loopG_ok (fun j => env.write (1 + j)) (firstRound env i)
    (fun j err => [.write (.json (firstChangeEvent i j (env.now (1 + j)))) false,
                   .log (.writeChangeError i err)]) N 0
    (fun x hx => by simpa using hprev (1 + x) (by omega))
  have hb := loopG_fail (fun j => env.write (1 + N + j)) (secondRound env i)
    (fun j err => [.write (.json (secondChangeEvent i j (env.now (1 + N + j)))) false,
                   .log (.writeChangeError i err)]) err m N 0 hm
    (fun x hx => by simpa using hprev (1 + N + x) (by omega)) (by simpa using hfail)
  simp only [Nat.zero_add] at ha hb
  simp [clientTask, hd, connected, h0, firstBatch_eq_loopG, ha, afterFirstBatch,
    secondBatch_eq_loopG, hb]

theorem clientTask_closeFail (addr : String) (env : Env) (i : Nat) (err : String)
    (hd : env.dial = none) (hprev : ∀ k, k < 1 + N + N → env.write k = none)
    (hfail : env.write (1 + N + N) = some err) :
    clientTask addr env i =
      [.dial (connectionString addr) true, .write (.json (loginEvent i (env.now 0))) true,
       .log (.loggedIn i), .sleep (5 * Second)] ++
      (List.range N).flatMap (firstRound env i) ++ [.sleep (1 * Minute)] ++
      (List.range N).flatMap (secondRound env i) ++
      [.sleep (1 * Minute), .write (.close CloseNormalClosure "") false,
       .log (.closeError i err), .closeConn] := by
  have h0 : env.write 0 = none := hprev 0 (by omega)
  have ha := loopG_ok (fun j => env.write (1 + j)) (firstRound env i)
    (fun j err => [.write (.json (firstChangeEvent i j (env.now (1 + j)))) false,
                   .log (.writeChangeError i err)]) N 0
    (fun x hx => by simpa using hprev (1 + x) (by omega))
  have hb := loopG_ok (fun j => env.write (1 + N + j)) (secondRound env i)
    (fun j err => [.write (.json (secondChangeEvent i j (env.now (1 + N + j)))) false,
                   .log (.writeChangeError i err)]) N 0
    (fun x hx => by simpa using hprev (1 + N + x) (by omega))
  simp only [Nat.zero_add] at ha hb
  simp [clientTask, hd, connected, h0, firstBatch_eq_loopG, ha, afterFirstBatch,
    secondBatch_eq_loopG, hb, closing, hfail]

theorem clientTask_allOk (addr : String) (env : Env) (i : Nat)
    (hd : env.dial = none) (hw : ∀ k, k < 2 + N + N → env.write k = none) :
    clientTask addr env i =
      [.dial (connectionString addr) true, .write (.json (loginEvent i (env.now 0))) true,
       .log (.loggedIn i), .sleep (5 * Second)] ++
      (List.range N).flatMap (firstRound env i) ++ [.sleep (1 * Minute)] ++
      (List.range N).flatMap (secondRound env i) ++
      [.sleep (1 * Minute), .write (.close CloseNormalClosure "") true, .addOk, .closeConn] := by
  have h0 : env.write 0 = none := hw 0 (by omega)
  have hc : env.write (1 + N + N) = none := hw _ (by omega)
  have ha := loopG_ok (fun j => env.write (1 + j)) (firstRound env i)
    (fun j err => [.write (.json (firstChangeEvent i j (env.now (1 + j)))) false,
                   .log (.writeChangeError i err)]) N 0
    (fun x hx => by simpa using hw (1 + x) (by omega))
  have hb := loopG_ok (fun j => env.write (1 + N + j)) (secondRound env i)
    (fun j err => [.write (.json (secondChangeEvent i j (env.now (1 + N + j)))) false,
                   .log (.writeChangeError i err)]) N 0
    (fun x hx => by simpa using hw (1 + N + x) (by omega))
  simp only [Nat.zero_add] at ha hb
  simp [clientTask, hd, connected, h0, firstBatch_eq_loopG, ha, afterFirstBatch,
    secondBatch_eq_loopG, hb, closing, hc]

/-! ## Lemmas on the readings of a task -/

theorem N_eq : N = 100 := rfl

theorem written_append (a b : List Action) : written (a ++ b) = written a ++ written b := by
  induction a with
  | nil => rfl
  | cons x a ih =>
    cases x with
    | write f ok => cases ok <;> simp [written, ih]
    | _ => simp [written, ih]

theorem attempted_append (a b : List Action) :
    attempted (a ++ b) = attempted a ++ attempted b := by
  induction a with
  | nil => rfl
  | cons x a ih => cases x <;> simp [attempted, ih]

theorem logged_append (a b : List Action) : logged (a ++ b) = logged a ++ logged b := by
  induction a with
  | nil => rfl
  | cons x a ih => cases x <;> simp [logged, ih]

theorem increments_append (a b : List Action) :
    increments (a ++ b) = increments a + increments b := by
  simp [increments]

theorem proj_flatMap {β : Type} (P : List Action → List β) (hnil : P [] = [])
    (happ : ∀ a b, P (a ++ b) = P a ++ P b) (g : Nat → List Action) (l : List Nat) :
    P (l.flatMap g) = l.flatMap (fun j => P (g j)) := by
  induction l with
  | nil => simpa using hnil
  | cons x l ih => simp [happ, ih]

theorem flatMap_single {α β : Type} (f : α → β) (l : List α) :
    l.flatMap (fun x => [f x]) = l.map f := by
  induction l with
  | nil => rfl
  | cons x l ih => simp [ih]

theorem increments_flatMap_zero (g : Nat → List Action) (hg : ∀ j, increments (g j) = 0)
    (l : List Nat) : increments (l.flatMap g) = 0 := by
  induction l with
  | nil => rfl
  | cons x l ih => simp [increments_append, hg, ih]

theorem take_map_range_le {α : Type} (f : Nat → α) (n m : Nat) (rest : List α) (h : m ≤ n) :
    ((List.range n).map f ++ rest).take m = (List.range m).map f := by
  rw [List.take_append_of_le_length (by simpa using h), ← List.map_take, List.take_range,
    Nat.min_eq_left h]

theorem take_map_range_add {α : Type} (f : Nat → α) (n m : Nat) (rest : List α) :
    ((List.range n).map f ++ rest).take (n + m) = (List.range n).map f ++ rest.take m := by
  have h := @List.take_append _ ((List.range n).map f) rest m
  simpa using h

theorem written_firstRounds (env : Env) (i : Nat) (l : List Nat) :
    written (l.flatMap (firstRound env i)) =
      l.map (fun j => .json (firstChangeEvent i j (env.now (1 + j)))) := by
  rw [proj_flatMap written rfl written_append]
  exact flatMap_single _ l

theorem written_secondRounds (env : Env) (i : Nat) (l : List Nat) :
    written (l.flatMap (secondRound env i)) =
      l.map (fun j => .json (secondChangeEvent i j (env.now (1 + N + j)))) := by
  rw [proj_flatMap written rfl written_append]
  exact flatMap_single _ l

theorem attempted_firstRounds (env : Env) (i : Nat) (l : List Nat) :
    attempted (l.flatMap (firstRound env i)) =
      l.map (fun j => .json (firstChangeEvent i j (env.now (1 + j)))) := by
  rw [proj_flatMap attempted rfl attempted_append]
  exact flatMap_single _ l

theorem attempted_secondRounds (env : Env) (i : Nat) (l : List Nat) :
    attempted (l.flatMap (secondRound env i)) =
      l.map (fun j => .json (secondChangeEvent i j (env.now (1 + N + j)))) := by
  rw [proj_flatMap attempted rfl attempted_append]
  exact flatMap_single _ l

theorem errors_firstRounds (env : Env) (i : Nat) (l : List Nat) :
    (logged (l.flatMap (firstRound env i))).filter LogLine.isError = [] := by
  induction l with
  | nil => rfl
  | cons x l ih => rw [List.flatMap_cons, logged_append, List.filter_append, ih]; rfl

theorem errors_secondRounds (env : Env) (i : Nat) (l : List Nat) :
    (logged (l.flatMap (secondRound env i))).filter LogLine.isError = [] := by
  induction l with
  | nil => rfl
  | cons x l ih => rw [List.flatMap_cons, logged_append, List.filter_append, ih]; rfl

theorem increments_firstRounds (env : Env) (i : Nat) (l : List Nat) :
    increments (l.flatMap (firstRound env i)) = 0 :=
  increments_flatMap_zero _ (fun j => by simp [increments, firstRound]) l

theorem increments_secondRounds (env : Env) (i : Nat) (l : List Nat) :
    increments (l.flatMap (secondRound env i)) = 0 :=
  increments_flatMap_zero _ (fun j => by simp [increments, secondRound]) l

theorem allOk_iff (env : Env) :
    env.allOk = true ↔ env.dial = none ∧ ∀ k, k < 2 + N + N → env.write k = none := by
  simp [Env.allOk, List.all_eq_true, Option.isNone_iff_eq_none]

/-- Among the writes below `n`, either none fails or there is a first one that fails. -/
theorem first_failure (wr : Nat → Option String) :
    ∀ n, (∀ k, k < n → wr k = none) ∨
      ∃ k err, k < n ∧ (∀ m, m < k → wr m = none) ∧ wr k = some err := by
  intro n
  induction n with
  | zero => left; intro k hk; omega
  | succ n ih =>
    rcases ih with h | ⟨k, err, hk, hprev, hfail⟩
    · cases hn : wr n with
      | none =>
        left
        intro k hk
        rcases Nat.lt_succ_iff_lt_or_eq.mp hk with h1 | h1
        · exact h k h1
        · rw [h1]; exact hn
      | some err => exact Or.inr ⟨n, err, Nat.lt_succ_self n, h, hn⟩
    · exact Or.inr ⟨k, err, Nat.lt_succ_of_lt hk, hprev, hfail⟩

theorem write_index_cases (k : Nat) (hk : k < 2 + N + N) :
    k = 0 ∨ (∃ m, m < N ∧ k = 1 + m) ∨ (∃ m, m < N ∧ k = 1 + N + m) ∨ k = 1 + N + N := by
  by_cases h0 : k = 0
  · exact Or.inl h0
  by_cases h1 : k ≤ N
  · exact Or.inr (Or.inl ⟨k - 1, by omega, by omega⟩)
  by_cases h2 : k ≤ N + N
  · exact Or.inr (Or.inr (Or.inl ⟨k - 1 - N, by omega, by omega⟩))
  · exact Or.inr (Or.inr (Or.inr (by omega)))

theorem fullScript_length (env : Env) (i : Nat) : (fullScript env i).length = 2 + N + N := by
  simp [fullScript]; omega

theorem fullScript_take_first (env : Env) (i m : Nat) (h : m ≤ N) :
    (fullScript env i).take (1 + m) =
      .json (loginEvent i (env.now 0)) ::
        (List.range m).map (fun j => .json (firstChangeEvent i j (env.now (1 + j)))) := by
  rw [Nat.add_comm 1 m]
  simp only [fullScript, List.append_assoc, List.singleton_append, List.cons_append, List.nil_append,
    List.take_succ_cons]
  rw [take_map_range_le _ _ _ _ h]

theorem fullScript_take_second (env : Env) (i m : Nat) (h : m ≤ N) :
    (fullScript env i).take (1 + N + m) =
      .json (loginEvent i (env.now 0)) ::
        ((List.range N).map (fun j => .json (firstChangeEvent i j (env.now (1 + j)))) ++
         (List.range m).map (fun j => .json (secondChangeEvent i j (env.now (1 + N + j))))) := by
  rw [show 1 + N + m = (N + m) + 1 by omega]
  simp only [fullScript, List.append_assoc, List.singleton_append, List.cons_append,
    List.nil_append, List.take_succ_cons]
  rw [take_map_range_add, take_map_range_le _ _ _ _ h]

theorem fullScript_take_all (env : Env) (i : Nat) :
    (fullScript env i).take (1 + N + N + 1) = fullScript env i :=
  List.take_of_length_le (by rw [fullScript_length]; omega)

/-- The readings of a task whose dial succeeds and whose first failing write
is the one of index `k`, counted from 0. -/
theorem fail_readings (addr : String) (env : Env) (i k : Nat) (err : String)
    (hd : env.dial = none) (hk : k < 2 + N + N)
    (hprev : ∀ m, m < k → env.write m = none) (hfail : env.write k = some err) :
    written (clientTask addr env i) = (fullScript env i).take k ∧
    attempted (clientTask addr env i) = (fullScript env i).take (k + 1) ∧
    (logged (clientTask addr env i)).filter LogLine.isError = [errorLine i (k + 1) err] ∧
    increments (clientTask addr env i) = 0 := by
  rcases write_index_cases k hk with h | ⟨m, hm, h⟩ | ⟨m, hm, h⟩ | h
  · subst h
    rw [clientTask_loginFail addr env i err hd hfail]
    refine ⟨rfl, ?_, rfl, rfl⟩
    simp [attempted, fullScript]
  · subst h
    rw [clientTask_firstFail addr env i m err hd hm hprev hfail]
    refine ⟨?_, ?_, ?_, ?_⟩
    · rw [fullScript_take_first env i m (Nat.le_of_lt hm)]
      simp only [written_append, written_firstRounds]
      simp [written]
    · rw [show 1 + m + 1 = 1 + (m + 1) by omega, fullScript_take_first env i (m + 1) hm,
        List.range_succ, List.map_append]
      simp only [attempted_append, attempted_firstRounds]
      simp [attempted]
    · have he : errorLine i (1 + m + 1) err = .writeChangeError i err := by
        have h1 : ¬ (1 + m + 1 = 1) := by omega
        have h2 : 1 + m + 1 ≤ 1 + N + N := by omega
        simp [errorLine, h1, h2]
      rw [he]
      simp only [logged_append, List.filter_append, errors_firstRounds]
      rfl
    · simp only [increments_append, increments_firstRounds]
      rfl
  · subst h
    rw [clientTask_secondFail addr env i m err hd hm hprev hfail]
    refine ⟨?_, ?_, ?_, ?_⟩
    · rw [fullScript_take_second env i m (Nat.le_of_lt hm)]
      simp only [written_append, written_firstRounds, written_secondRounds]
      simp [written]
    · rw [show 1 + N + m + 1 = 1 + N + (m + 1) by omega,
        fullScript_take_second env i (m + 1) hm, List.range_succ m, List.map_append]
      simp only [attempted_append, attempted_firstRounds, attempted_secondRounds]
      simp [attempted]
    · have he : errorLine i (1 + N + m + 1) err = .writeChangeError i err := by
        have h1 : ¬ (1 + N + m + 1 = 1) := by omega
        have h2 : 1 + N + m + 1 ≤ 1 + N + N := by omega
        simp [errorLine, h1, h2]
      rw [he]
      simp only [logged_append, List.filter_append, errors_firstRounds, errors_secondRounds]
      rfl
    · simp only [increments_append, increments_firstRounds, increments_secondRounds]
      rfl
  · subst h
    rw [clientTask_closeFail addr env i err hd hprev hfail]
    refine ⟨?_, ?_, ?_, ?_⟩
    · rw [fullScript_take_second env i N (Nat.le_refl N)]
      simp only [written_append, written_firstRounds, written_secondRounds]
      simp [written]
    · rw [fullScript_take_all]
      simp only [attempted_append, attempted_firstRounds, attempted_secondRounds]
      simp [attempted, fullScript]
    · have he : errorLine i (1 + N + N + 1) err = .closeError i err := by
        have h1 : ¬ (1 + N + N + 1 = 1) := by omega
        have h2 : ¬ (1 + N + N + 1 ≤ 1 + N + N) := by omega
        simp [errorLine, h1, h2]
      rw [he]
      simp only [logged_append, List.filter_append, errors_firstRounds, errors_secondRounds]
      rfl
    · simp only [increments_append, increments_firstRounds, increments_secondRounds]
      rfl

/-- The actions of a task none of whose steps fails. -/
theorem ok_task (addr : String) (env : Env) (i : Nat) (h : env.allOk = true) :
    clientTask addr env i =
      [.dial (connectionString addr) true, .write (.json (loginEvent i (env.now 0))) true,
       .log (.loggedIn i), .sleep (5 * Second)] ++
      (List.range N).flatMap (firstRound env i) ++ [.sleep (1 * Minute)] ++
      (List.range N).flatMap (secondRound env i) ++
      [.sleep (1 * Minute), .write (.close CloseNormalClosure "") true, .addOk, .closeConn] :=
  clientTask_allOk addr env i ((allOk_iff env).mp h).1 ((allOk_iff env).mp h).2

theorem ok_written (addr : String) (env : Env) (i : Nat) (h : env.allOk = true) :
    written (clientTask addr env i) = fullScript env i := by
  rw [ok_task addr env i h]
  simp only [written_append, written_firstRounds, written_secondRounds]
  simp [written, fullScript]

theorem ok_increments (addr : String) (env : Env) (i : Nat) (h : env.allOk = true) :
    increments (clientTask addr env i) = 1 := by
  rw [ok_task addr env i h]
  simp only [increments_append, increments_firstRounds, increments_secondRounds]
  rfl

/-- The number of increments of a task: one when every step succeeds, none otherwise. -/
theorem increments_clientTask (addr : String) (env : Env) (i : Nat) :
    increments (clientTask addr env i) = if env.allOk = true then 1 else 0 := by
  by_cases h : env.allOk = true
  · rw [if_pos h, ok_increments addr env i h]
  · rw [if_neg h]
    cases hd : env.dial with
    | some err => rw [clientTask_dialFail addr env i err hd]; rfl
    | none =>
      rcases first_failure env.write (2 + N + N) with hall | ⟨k, err, hk, hprev, hfail⟩
      · exact absurd ((allOk_iff env).mpr ⟨hd, hall⟩) h
      · exact (fail_readings addr env i k err hd hk hprev hfail).2.2.2

theorem filter_flatMap_rounds (g : Nat → List Action) (l : List Nat) (p : Action → Bool) :
    (l.flatMap g).filter p = l.flatMap (fun j => (g j).filter p) :=
  proj_flatMap (List.filter p) rfl (fun a b => List.filter_append a b) g l

/-! ## Lemmas on the driver -/

theorem sum_map_set {α : Type} (g : α → Nat) :
    ∀ (l : List α) (k : Nat) (x y : α), l[k]? = some y →
      ((l.set k x).map g).sum + g y = (l.map g).sum + g x := by
  intro l
  induction l with
  | nil => intro k x y h; simp at h
  | cons a l ih =>
    intro k x y h
    cases k with
    | zero =>
      simp at h
      subst h
      simp [List.set]
      omega
    | succ k =>
      simp at h
      have := ih k x y h
      simp only [List.set, List.map_cons, List.sum_cons]
      omega

theorem obsWeight_append (f : Action → Nat) (a b : List Obs) :
    obsWeight f (a ++ b) = obsWeight f a + obsWeight f b := by
  induction a with
  | nil => simp [obsWeight]
  | cons x a ih => cases x <;> simp [obsWeight, ih]; omega

theorem actionsOf_append (k : Nat) (a b : List Obs) :
    actionsOf k (a ++ b) = actionsOf k a ++ actionsOf k b := by
  induction a with
  | nil => simp [actionsOf]
  | cons x a ih =>
    cases x with
    | main l => simp [actionsOf, ih]
    | client c act => by_cases h : c = k <;> simp [actionsOf, ih, h]

theorem running_zero_get (tasks : List (Option (List Action))) (h : running tasks = 0)
    (k : Nat) (t : Option (List Action)) (hk : tasks[k]? = some t) : t = none := by
  induction tasks generalizing k with
  | nil => simp at hk
  | cons a l ih =>
    have h1 : live a + running l = 0 := by simpa [running] using h
    cases k with
    | zero =>
      simp at hk
      subst hk
      cases a with
      | none => rfl
      | some x => simp [live] at h1
    | succ k =>
      simp at hk
      exact ih (by omega) k hk

theorem running_pos_get (tasks : List (Option (List Action))) (h : running tasks ≠ 0) :
    ∃ (k : Nat) (l : List Action), tasks[k]? = some (some l) := by
  induction tasks with
  | nil => simp [running] at h
  | cons a t ih =>
    cases a with
    | some x => exact ⟨0, x, by simp⟩
    | none =>
      have h1 : running t ≠ 0 := by simpa [running, live] using h
      obtain ⟨k, l, hk⟩ := ih h1
      exact ⟨k + 1, l, by simpa using hk⟩

theorem running_zero_eq (tasks : List (Option (List Action))) (h : running tasks = 0) :
    tasks = List.replicate tasks.length none := by
  induction tasks with
  | nil => rfl
  | cons a l ih =>
    have h1 : live a + running l = 0 := by simpa [running] using h
    cases a with
    | some x => simp [live] at h1
    | none =>
      have := ih (by omega)
      simp [List.replicate_succ]
      exact this

theorem pendingWeight_zero (f : Action → Nat) (tasks : List (Option (List Action)))
    (h : running tasks = 0) : pendingWeight f tasks = 0 := by
  rw [running_zero_eq tasks h]
  generalize tasks.length = m
  induction m with
  | zero => rfl
  | succ m ih =>
    simp only [pendingWeight, List.replicate_succ, List.map_cons, List.sum_cons] at ih ⊢
    rw [ih]
    rfl

theorem inv_start (n : Nat) (addr : String) (envs : Nat → Env) :
    Inv n addr envs (start addr) where
  len := rfl
  le := Nat.zero_le n
  wg := rfl
  ok := rfl
  weight := fun _ => rfl
  acts := fun k hk => absurd hk (Nat.not_lt_zero k)
  idle := fun _ _ => rfl
  noTally := fun _ o ho => by
    simp only [start, List.mem_singleton] at ho
    subst ho
    rfl
  done := fun h => by simp [start] at h

theorem step_main_cases (n : Nat) (addr : String) (envs : Nat → Env) (w w1 : World)
    (h : step n addr envs .main w = some w1) :
    (w.exited = false ∧ w.i < n ∧
      w1 = { w with wg := w.wg + 1,
                    tasks := w.tasks ++ [some (clientTask addr (envs w.i) w.i)],
                    i := w.i + 1 }) ∨
    (w.exited = false ∧ ¬ w.i < n ∧ w.wg = 0 ∧
      w1 = { w with events := w.events ++ [.main (.tally w.ok n)], exited := true }) := by
  simp only [step] at h
  split at h
  · exact absurd h (by simp)
  · rename_i he
    have he : w.exited = false := by simpa using he
    split at h
    · rename_i hi
      exact Or.inl ⟨he, hi, (Option.some.inj h).symm⟩
    · rename_i hi
      split at h
      · rename_i hw
        exact Or.inr ⟨he, hi, hw, (Option.some.inj h).symm⟩
      · exact absurd h (by simp)

theorem step_client_cases (n : Nat) (addr : String) (envs : Nat → Env) (k : Nat)
    (w w1 : World) (h : step n addr envs (.client k) w = some w1) :
    (∃ a rest, w.tasks[k]? = some (some (a :: rest)) ∧
      w1 = { w with tasks := w.tasks.set k (some rest), events := w.events ++ [.client k a],
                    ok := if a = .addOk then w.ok + 1 else w.ok }) ∨
    (w.tasks[k]? = some (some []) ∧
      w1 = { w with tasks := w.tasks.set k none, wg := w.wg - 1 }) := by
  simp only [step] at h
  split at h
  · rename_i a rest ht
    exact Or.inl ⟨a, rest, ht, (Option.some.inj h).symm⟩
  · rename_i ht
    exact Or.inr ⟨ht, (Option.some.inj h).symm⟩
  · exact absurd h (by simp)

theorem inv_spawn (n : Nat) (addr : String) (envs : Nat → Env) (w : World)
    (h : Inv n addr envs w) (he : w.exited = false) (hi : w.i < n) :
    Inv n addr envs { w with wg := w.wg + 1,
                             tasks := w.tasks ++ [some (clientTask addr (envs w.i) w.i)],
                             i := w.i + 1 } where
  len := by simp [h.len]
  le := hi
  wg := by
    have : running (w.tasks ++ [some (clientTask addr (envs w.i) w.i)]) = running w.tasks + 1 := by
      simp [running, live]
    simp only [this, h.wg]
    push_cast
    rfl
  ok := h.ok
  weight := fun f => by
    have h1 := h.weight f
    have h2 : pendingWeight f (w.tasks ++ [some (clientTask addr (envs w.i) w.i)]) =
        pendingWeight f w.tasks + weight f (clientTask addr (envs w.i) w.i) := by
      simp [pendingWeight, pending]
    simp only [h2, launchedWeight]
    omega
  acts := fun k hk => by
    by_cases hki : k < w.i
    · have hl : k < w.tasks.length := by rw [h.len]; exact hki
      simp only [List.getElem?_append_left hl]
      exact h.acts k hki
    · have hkeq : k = w.i := by
        have : k < w.i + 1 := hk
        omega
      subst hkeq
      have hl : w.tasks.length ≤ w.i := by rw [h.len]
      simp only [h.idle w.i (Nat.le_refl _), List.getElem?_append_right hl, h.len, Nat.sub_self]
      rfl
  idle := fun k hk => h.idle k (by have : w.i + 1 ≤ k := hk; omega)
  noTally := fun _ => h.noTally he
  done := fun hx => by simp [he] at hx

theorem inv_tally (n : Nat) (addr : String) (envs : Nat → Env) (w : World)
    (h : Inv n addr envs w) (he : w.exited = false) (hi : ¬ w.i < n) (hw : w.wg = 0) :
    Inv n addr envs { w with events := w.events ++ [.main (.tally w.ok n)], exited := true } where
  len := h.len
  le := h.le
  wg := h.wg
  ok := by
    simp only [obsWeight_append, obsWeight, Nat.add_zero]
    exact h.ok
  weight := fun f => by
    simp only [obsWeight_append, obsWeight, Nat.add_zero]
    exact h.weight f
  acts := fun k hk => by
    simp only [actionsOf_append, actionsOf, List.append_nil]
    exact h.acts k hk
  idle := fun k hk => by
    simp only [actionsOf_append, actionsOf, List.append_nil]
    exact h.idle k hk
  noTally := fun hx => by simp at hx
  done := fun _ => by
    refine ⟨?_, ?_, w.events, rfl, h.noTally he⟩
    · have := h.le
      show w.i = n
      omega
    · have h1 := h.wg
      rw [hw] at h1
      show running w.tasks = 0
      exact_mod_cast h1.symm

theorem not_exited_of_get (n : Nat) (addr : String) (envs : Nat → Env) (w : World)
    (h : Inv n addr envs w) (k : Nat) (l : List Action) (ht : w.tasks[k]? = some (some l)) :
    w.exited = false := by
  cases he : w.exited with
  | false => rfl
  | true =>
    have := running_zero_get w.tasks (h.done he).2.1 k _ ht
    simp at this

theorem lt_of_get (n : Nat) (addr : String) (envs : Nat → Env) (w : World)
    (h : Inv n addr envs w) (k : Nat) (t : Option (List Action)) (ht : w.tasks[k]? = some t) :
    k < w.i := by
  rw [← h.len]
  exact (List.getElem?_eq_some_iff.mp ht).1

theorem inv_act (n : Nat) (addr : String) (envs : Nat → Env) (w : World)
    (h : Inv n addr envs w) (k : Nat) (a : Action) (rest : List Action)
    (ht : w.tasks[k]? = some (some (a :: rest))) :
    Inv n addr envs { w with tasks := w.tasks.set k (some rest),
                             events := w.events ++ [.client k a],
                             ok := if a = .addOk then w.ok + 1 else w.ok } where
  len := by simp [h.len]
  le := h.le
  wg := by
    have := sum_map_set live w.tasks k (some rest) _ ht
    have h2 : running (w.tasks.set k (some rest)) = running w.tasks := by
      simp only [live] at this
      simp only [running]
      omega
    simp only [h2]
    exact h.wg
  ok := by
    simp only [obsWeight_append, obsWeight, Nat.add_zero, addOkWeight]
    have := h.ok
    by_cases ha : a = .addOk
    · simp only [ha, if_true]
      rw [this]
      push_cast
      rfl
    · simp only [ha, if_false, Nat.add_zero]
      exact this
  weight := fun f => by
    have h1 := h.weight f
    have h2 : ((w.tasks.set k (some rest)).map (fun t => weight f (pending t))).sum +
        weight f (a :: rest) = (w.tasks.map (fun t => weight f (pending t))).sum + weight f rest :=
      sum_map_set (fun t => weight f (pending t)) w.tasks k (some rest) _ ht
    have h3 : weight f (a :: rest) = f a + weight f rest := rfl
    simp only [obsWeight_append, obsWeight, Nat.add_zero, pendingWeight] at h1 ⊢
    omega
  acts := fun c hc => by
    simp only [actionsOf_append, actionsOf]
    by_cases hck : k = c
    · subst hck
      have hl : k < w.tasks.length := (List.getElem?_eq_some_iff.mp ht).1
      have := h.acts k hc
      rw [ht] at this
      simp only [if_true, List.getElem?_set_self hl, Option.getD_some, pending] at this ⊢
      simpa using this
    · simp only [hck, if_false, List.append_nil, List.getElem?_set_ne hck]
      exact h.acts c hc
  idle := fun c hc => by
    have hk := lt_of_get n addr envs w h k _ ht
    have hck : ¬ k = c := by
      have : w.i ≤ c := hc
      omega
    simp only [actionsOf_append, actionsOf, hck, if_false, List.append_nil]
    exact h.idle c hc
  noTally := fun _ o ho => by
    have he := not_exited_of_get n addr envs w h k _ ht
    rcases List.mem_append.mp ho with h1 | h1
    · exact h.noTally he o h1
    · rw [List.mem_singleton.mp h1]
      rfl
  done := fun hx => by
    have he := not_exited_of_get n addr envs w h k _ ht
    have hx : w.exited = true := hx
    rw [he] at hx
    exact absurd hx (by simp)

theorem inv_done (n : Nat) (addr : String) (envs : Nat → Env) (w : World)
    (h : Inv n addr envs w) (k : Nat) (ht : w.tasks[k]? = some (some [])) :
    Inv n addr envs { w with tasks := w.tasks.set k none, wg := w.wg - 1 } where
  len := by simp [h.len]
  le := h.le
  wg := by
    have := sum_map_set live w.tasks k none _ ht
    have h2 : running (w.tasks.set k none) + 1 = running w.tasks := by
      simp only [live] at this
      simp only [running]
      omega
    have h3 := h.wg
    show w.wg - 1 = ((running (w.tasks.set k none) : Nat) : Int)
    rw [h3, ← h2]
    push_cast
    omega
  ok := h.ok
  weight := fun f => by
    have h1 := h.weight f
    have h2 : ((w.tasks.set k none).map (fun t => weight f (pending t))).sum +
        weight f [] = (w.tasks.map (fun t => weight f (pending t))).sum + weight f [] :=
      sum_map_set (fun t => weight f (pending t)) w.tasks k none _ ht
    simp only [pendingWeight] at h1 ⊢
    omega
  acts := fun c hc => by
    by_cases hck : k = c
    · subst hck
      have hl : k < w.tasks.length := (List.getElem?_eq_some_iff.mp ht).1
      have := h.acts k hc
      rw [ht] at this
      simp only [List.getElem?_set_self hl, Option.getD_some, pending] at this ⊢
      exact this
    · simp only [List.getElem?_set_ne hck]
      exact h.acts c hc
  idle := h.idle
  noTally := fun _ => h.noTally (not_exited_of_get n addr envs w h k _ ht)
  done := fun hx => by
    have he := not_exited_of_get n addr envs w h k _ ht
    have hx : w.exited = true := hx
    rw [he] at hx
    exact absurd hx (by simp)

theorem inv_step (n : Nat) (addr : String) (envs : Nat → Env) (who : Who) (w w1 : World)
    (h : Inv n addr envs w) (hs : step n addr envs who w = some w1) : Inv n addr envs w1 := by
  cases who with
  | main =>
    rcases step_main_cases n addr envs w w1 hs with ⟨he, hi, rfl⟩ | ⟨he, hi, hw, rfl⟩
    · exact inv_spawn n addr envs w h he hi
    · exact inv_tally n addr envs w h he hi hw
  | client k =>
    rcases step_client_cases n addr envs k w w1 hs with ⟨a, rest, ht, rfl⟩ | ⟨ht, rfl⟩
    · exact inv_act n addr envs w h k a rest ht
    · exact inv_done n addr envs w h k ht

theorem inv_exec (n : Nat) (addr : String) (envs : Nat → Env) :
    ∀ (sched : List Who) (w w1 : World), Inv n addr envs w →
      exec n addr envs sched w = some w1 → Inv n addr envs w1 := by
  intro sched
  induction sched with
  | nil =>
    intro w w1 h hs
    simp only [exec] at hs
    exact (Option.some.inj hs) ▸ h
  | cons who rest ih =>
    intro w w1 h hs
    simp only [exec] at hs
    split at hs
    · rename_i w2 h2
      exact ih w2 w1 (inv_step n addr envs who w w2 h h2) hs
    · exact absurd hs (by simp)

/-! ## Every run ends with the tally -/

theorem step_moves (n : Nat) (addr : String) (envs : Nat → Env) (who : Who) (w w1 : World)
    (hs : step n addr envs who w = some w1) :
    movesLeft n addr envs w1 + 1 = movesLeft n addr envs w := by
  cases who with
  | main =>
    rcases step_main_cases n addr envs w w1 hs with ⟨he, hi, rfl⟩ | ⟨he, hi, hw, rfl⟩
    · obtain ⟨d, hd⟩ : ∃ d, n - w.i = d + 1 := ⟨n - w.i - 1, by omega⟩
      have hd1 : n - (w.i + 1) = d := by omega
      simp only [movesLeft, hd, hd1, launchCost, he, List.map_append, List.sum_append,
        List.map_cons, List.map_nil, List.sum_cons, List.sum_nil, live, pending]
      simp
      omega
    · simp [movesLeft, he]
  | client k =>
    rcases step_client_cases n addr envs k w w1 hs with ⟨a, rest, ht, rfl⟩ | ⟨ht, rfl⟩
    · have h2 : ((w.tasks.set k (some rest)).map (fun t => live t + (pending t).length)).sum +
          (live (some (a :: rest)) + (pending (some (a :: rest))).length) =
          (w.tasks.map (fun t => live t + (pending t).length)).sum +
          (live (some rest) + (pending (some rest)).length) :=
        sum_map_set (fun t => live t + (pending t).length) w.tasks k (some rest) _ ht
      have e1 : live (some (a :: rest)) + (pending (some (a :: rest))).length =
          rest.length + 2 := by simp [live, pending]; omega
      have e2 : live (some rest) + (pending (some rest)).length = rest.length + 1 := by
        simp [live, pending]; omega
      rw [e1, e2] at h2
      simp only [movesLeft]
      omega
    · have h2 : ((w.tasks.set k none).map (fun t => live t + (pending t).length)).sum +
          (live (some []) + (pending (some [])).length) =
          (w.tasks.map (fun t => live t + (pending t).length)).sum +
          (live none + (pending none).length) :=
        sum_map_set (fun t => live t + (pending t).length) w.tasks k none _ ht
      have e1 : live (some ([] : List Action)) + (pending (some ([] : List Action))).length = 1 :=
        rfl
      have e2 : live none + (pending none).length = 0 := rfl
      rw [e1, e2] at h2
      simp only [movesLeft]
      omega

theorem exec_moves (n : Nat) (addr : String) (envs : Nat → Env) :
    ∀ (sched : List Who) (w w1 : World), exec n addr envs sched w = some w1 →
      movesLeft n addr envs w1 + sched.length = movesLeft n addr envs w := by
  intro sched
  induction sched with
  | nil =>
    intro w w1 hs
    simp only [exec] at hs
    rw [Option.some.inj hs]
    rfl
  | cons who rest ih =>
    intro w w1 hs
    simp only [exec] at hs
    split at hs
    · rename_i w2 h2
      have := ih w2 w1 hs
      have := step_moves n addr envs who w w2 h2
      simp only [List.length_cons]
      omega
    · exact absurd hs (by simp)

theorem progress (n : Nat) (addr : String) (envs : Nat → Env) (w : World)
    (h : Inv n addr envs w) (he : w.exited = false) :
    ∃ who w1, step n addr envs who w = some w1 := by
  by_cases hi : w.i < n
  · exact ⟨.main, Option.isSome_iff_exists.mp (by simp [step, he, hi])⟩
  · by_cases hr : running w.tasks = 0
    · have hw : w.wg = 0 := by rw [h.wg, hr]; rfl
      exact ⟨.main, Option.isSome_iff_exists.mp (by simp [step, he, hi, hw])⟩
    · obtain ⟨k, l, hk⟩ := running_pos_get w.tasks hr
      cases l with
      | nil => exact ⟨.client k, Option.isSome_iff_exists.mp (by simp [step, hk])⟩
      | cons a rest => exact ⟨.client k, Option.isSome_iff_exists.mp (by simp [step, hk])⟩

theorem exec_append (n : Nat) (addr : String) (envs : Nat → Env) :
    ∀ (s1 s2 : List Who) (w w1 : World), exec n addr envs s1 w = some w1 →
      exec n addr envs (s1 ++ s2) w = exec n addr envs s2 w1 := by
  intro s1
  induction s1 with
  | nil =>
    intro s2 w w1 hs
    simp only [exec] at hs
    rw [Option.some.inj hs]
    rfl
  | cons who rest ih =>
    intro s2 w w1 hs
    simp only [exec, List.cons_append] at hs ⊢
    split at hs
    · rename_i w2 h2
      exact ih s2 w2 w1 hs
    · exact absurd hs (by simp)

theorem completion (n : Nat) (addr : String) (envs : Nat → Env) :
    ∀ (m : Nat) (w : World), Inv n addr envs w → movesLeft n addr envs w ≤ m →
      ∃ sched w1, exec n addr envs sched w = some w1 ∧ w1.exited = true := by
  intro m
  induction m with
  | zero =>
    intro w _ hm
    cases he : w.exited with
    | true => exact ⟨[], w, rfl, he⟩
    | false =>
      simp only [movesLeft, he] at hm
      simp at hm
  | succ m ih =>
    intro w h hm
    cases he : w.exited with
    | true => exact ⟨[], w, rfl, he⟩
    | false =>
      obtain ⟨who, w2, h2⟩ := progress n addr envs w h he
      have hlt := step_moves n addr envs who w w2 h2
      obtain ⟨sched, w1, hs, hx⟩ := ih w2 (inv_step n addr envs who w w2 h h2) (by omega)
      refine ⟨who :: sched, w1, ?_, hx⟩
      simp only [exec, h2]
      exact hs

/-! ## The tally at the end of a run -/

theorem weight_addOk (l : List Action) : weight addOkWeight l = increments l := by
  induction l with
  | nil => rfl
  | cons a l ih =>
    have h1 : weight addOkWeight (a :: l) = addOkWeight a + weight addOkWeight l := rfl
    rw [h1, ih]
    by_cases ha : a = .addOk
    · subst ha
      simp [addOkWeight, increments]
      omega
    · have : ¬ (a == Action.addOk) = true := by simpa using ha
      simp [addOkWeight, increments, List.count_cons, ha, this]

theorem successes_succ (i : Nat) (envs : Nat → Env) :
    successes (i + 1) envs = successes i envs + if (envs i).allOk = true then 1 else 0 := by
  simp only [successes, List.range_succ, List.filter_append, List.length_append]
  by_cases h : (envs i).allOk = true <;> simp [h]

theorem launched_addOk (addr : String) (envs : Nat → Env) :
    ∀ i, launchedWeight addOkWeight addr envs i = successes i envs := by
  intro i
  induction i with
  | zero => rfl
  | succ i ih =>
    rw [successes_succ, launchedWeight, ih, weight_addOk, increments_clientTask]

theorem launched_connectError (addr : String) (envs : Nat → Env) :
    ∀ i, (∀ k, k < i → (envs k).dial ≠ none) →
      launchedWeight connectErrorWeight addr envs i = i := by
  intro i
  induction i with
  | zero => intro _; rfl
  | succ i ih =>
    intro hall
    rw [launchedWeight, ih (fun k hk => hall k (Nat.lt_succ_of_lt hk))]
    cases hd : (envs i).dial with
    | none => exact absurd hd (hall i (Nat.lt_succ_self i))
    | some err =>
      rw [clientTask_dialFail addr (envs i) i err hd]
      rfl

theorem obsWeight_connectError (evs : List Obs) :
    obsWeight connectErrorWeight evs = (evs.filter Obs.isConnectError).length := by
  induction evs with
  | nil => rfl
  | cons o evs ih =>
    cases o with
    | main l => simp [obsWeight, Obs.isConnectError, ih]
    | client k a =>
      cases a with
      | log l =>
        cases l
        case connectError => simp [obsWeight, Obs.isConnectError, connectErrorWeight, ih]; omega
        all_goals simp [obsWeight, Obs.isConnectError, connectErrorWeight, ih]
      | _ => simp [obsWeight, Obs.isConnectError, connectErrorWeight, ih]

theorem successes_le (n : Nat) (envs : Nat → Env) : successes n envs ≤ n := by
  have := List.length_filter_le (fun k => (envs k).allOk) (List.range n)
  simpa [successes] using this

theorem successes_all (n : Nat) (envs : Nat → Env) (h : ∀ k, k < n → (envs k).allOk = true) :
    successes n envs = n := by
  induction n with
  | zero => rfl
  | succ n ih =>
    rw [successes_succ, ih (fun k hk => h k (Nat.lt_succ_of_lt hk)), if_pos (h n (Nat.lt_succ_self n))]

theorem successes_none (n : Nat) (envs : Nat → Env) (h : ∀ k, k < n → (envs k).allOk = false) :
    successes n envs = 0 := by
  induction n with
  | zero => rfl
  | succ n ih =>
    rw [successes_succ, ih (fun k hk => h k (Nat.lt_succ_of_lt hk))]
    simp [h n (Nat.lt_succ_self n)]

/-- At the end of a run the counter is the number of clients all of whose steps succeed. -/
theorem final_ok (n : Nat) (addr : String) (envs : Nat → Env) (w : World)
    (h : Inv n addr envs w) (he : w.exited = true) : w.ok = (successes n envs : Int) := by
  obtain ⟨hi, hr, _⟩ := h.done he
  have h1 := h.weight addOkWeight
  rw [pendingWeight_zero _ _ hr, hi, launched_addOk] at h1
  rw [h.ok]
  exact_mod_cast h1

/-! ## The decimal rendering is injective -/

theorem digitValue_digitChar (m : Nat) (h : m < 10) : digitValue (Nat.digitChar m) = m := by
  interval_cases m <;> rfl

theorem isDigit_digitChar (m : Nat) (h : m < 10) : isDigit (Nat.digitChar m) = true := by
  interval_cases m <;> rfl

theorem foldl_toDigitsCore :
    ∀ (fuel n : Nat) (ds : List Char), n < fuel →
      (Nat.toDigitsCore 10 fuel n ds).foldl (fun acc c => 10 * acc + digitValue c) 0 =
        ds.foldl (fun acc c => 10 * acc + digitValue c) n := by
  intro fuel
  induction fuel with
  | zero => intro n ds h; omega
  | succ fuel ih =>
    intro n ds h
    simp only [Nat.toDigitsCore]
    have hd := digitValue_digitChar (n % 10) (Nat.mod_lt n (by decide))
    split
    · rename_i h0
      simp only [List.foldl_cons, hd]
      congr 1
      omega
    · rename_i h0
      rw [ih (n / 10) _ (by omega)]
      simp only [List.foldl_cons, hd]
      congr 1
      omega

theorem decimalValue_repr (n : Nat) : decimalValue (Nat.repr n).data = n := by
  show decimalValue (Nat.toDigits 10 n) = n
  simp only [decimalValue, Nat.toDigits]
  rw [foldl_toDigitsCore (n + 1) n [] (Nat.lt_succ_self n)]
  rfl

theorem fmtD_injective (a b : Nat) (h : fmtD a = fmtD b) : a = b := by
  have := congrArg (fun s => decimalValue s.data) h
  simpa [fmtD, decimalValue_repr] using this

theorem USERNAME_injective (a b : Nat) (h : USERNAME a = USERNAME b) : a = b := by
  apply fmtD_injective
  have h1 := congrArg String.data h
  simp only [USERNAME, String.data_append] at h1
  exact String.ext (List.append_cancel_left h1)

theorem toDigitsCore_digits :
    ∀ (fuel n : Nat) (ds : List Char), (∀ c, c ∈ ds → isDigit c = true) →
      ∀ c, c ∈ Nat.toDigitsCore 10 fuel n ds → isDigit c = true := by
  intro fuel
  induction fuel with
  | zero => intro n ds h c hc; exact h c hc
  | succ fuel ih =>
    intro n ds h c hc
    simp only [Nat.toDigitsCore] at hc
    have hd := isDigit_digitChar (n % 10) (Nat.mod_lt n (by decide))
    have h1 : ∀ c, c ∈ Nat.digitChar (n % 10) :: ds → isDigit c = true := by
      intro c hc
      rcases List.mem_cons.mp hc with e | e
      · rw [e]; exact hd
      · exact h c e
    split at hc
    · exact h1 c hc
    · exact ih (n / 10) _ h1 c hc

theorem fmtD_digits (n : Nat) : ∀ c, c ∈ (fmtD n).data → isDigit c = true :=
  toDigitsCore_digits (n + 1) n [] (fun _ hc => absurd hc (List.not_mem_nil _))

/-! ## Splitting the observations at the tally -/

theorem tally_last (x t : Obs) (hx : x.isTally = true) :
    ∀ (pre1 pre post : List Obs), (∀ o, o ∈ pre1 → o.isTally = false) →
      pre1 ++ [t] = pre ++ x :: post → post = [] ∧ pre = pre1 ∧ x = t := by
  intro pre1
  induction pre1 with
  | nil =>
    intro pre post _ h
    cases pre with
    | nil =>
      simp only [List.nil_append, List.cons.injEq] at h
      exact ⟨h.2.symm, rfl, h.1.symm⟩
    | cons p ps =>
      simp only [List.nil_append, List.cons_append, List.cons.injEq] at h
      exact absurd h.2 (by simp)
  | cons a l ih =>
    intro pre post hpre h
    cases pre with
    | nil =>
      simp only [List.nil_append, List.cons_append, List.cons.injEq] at h
      have := hpre a (List.mem_cons_self a l)
      rw [h.1, hx] at this
      exact absurd this (by simp)
    | cons p ps =>
      simp only [List.cons_append, List.cons.injEq] at h
      obtain ⟨h1, h2, h3⟩ := ih ps post (fun o ho => hpre o (List.mem_cons_of_mem a ho)) h.2
      exact ⟨h1, by rw [h.1, h2], h3⟩

/-! ## Every frame of a task is a frame of the script -/

theorem attempted_mem_fullScript (addr : String) (env : Env) (i : Nat) (f : Frame)
    (hf : f ∈ attempted (clientTask addr env i)) : f ∈ fullScript env i := by
  cases hd : env.dial with
  | some err =>
    rw [clientTask_dialFail addr env i err hd] at hf
    simp [attempted] at hf
  | none =>
    rcases first_failure env.write (2 + N + N) with hall | ⟨k, err, hk, hprev, hfail⟩
    · have hok : env.allOk = true := (allOk_iff env).mpr ⟨hd, hall⟩
      have h1 : attempted (clientTask addr env i) = fullScript env i := by
        rw [ok_task addr env i hok]
        simp only [attempted_append, attempted_firstRounds, attempted_secondRounds]
        simp [attempted, fullScript]
      rwa [h1] at hf
    · rw [(fail_readings addr env i k err hd hk hprev hfail).2.1] at hf
      exact List.mem_of_mem_take hf

/-! ## The claims -/

/-- C1: whatever the outcome of the dial and of the 202 writes of a client, its
task increments the success counter once when all of them succeed and not at
all otherwise, hence never more than once. -/
theorem C1_counter_once (addr : String) (env : Env) (i : Nat) :
    increments (clientTask addr env i) = (if env.allOk = true then 1 else 0) ∧
    increments (clientTask addr env i) ≤ 1 ∧
    (env.allOk = true ↔ (env.dial = none ∧ ∀ k, k < 202 → env.write k = none)) := by
  have h := increments_clientTask addr env i
  refine ⟨h, ?_, allOk_iff env⟩
  rw [h]
  split <;> omega

/-- C2: when the dial fails the task consists of the failed dial and of the
connect-error line: no frame is written or attempted, the counter is not
incremented, and the only line logged is `<i>: connect error = <err>`. -/
theorem C2_dial_failure (addr : String) (env : Env) (i : Nat) (err : String)
    (hd : env.dial = some err) :
    clientTask addr env i = [.dial (connectionString addr) false, .log (.connectError i err)] ∧
    attempted (clientTask addr env i) = [] ∧
    written (clientTask addr env i) = [] ∧
    increments (clientTask addr env i) = 0 ∧
    logged (clientTask addr env i) = [.connectError i err] ∧
    (LogLine.connectError i err).render = Nat.repr i ++ ": connect error = " ++ err ++ "\n" := by
  rw [clientTask_dialFail addr env i err hd]
  exact ⟨rfl, rfl, rfl, rfl, rfl, rfl⟩

/-- C2 holds of a concrete run: client 7 against a server that refuses the connection. -/
theorem C2_dial_failure_witness :
    envRefused.dial = some "connection refused" ∧
    clientTask "localhost:1337" envRefused 7 =
      [.dial (connectionString "localhost:1337") false,
       .log (.connectError 7 "connection refused")] ∧
    attempted (clientTask "localhost:1337" envRefused 7) = [] ∧
    written (clientTask "localhost:1337" envRefused 7) = [] ∧
    increments (clientTask "localhost:1337" envRefused 7) = 0 ∧
    logged (clientTask "localhost:1337" envRefused 7) = [.connectError 7 "connection refused"] ∧
    (LogLine.connectError 7 "connection refused").render =
      Nat.repr 7 ++ ": connect error = " ++ "connection refused" ++ "\n" :=
  ⟨rfl, C2_dial_failure "localhost:1337" envRefused 7 "connection refused" rfl⟩

/-- C3: when the dial succeeds and the write number `k` of the script (1 the
login, 2 to 101 the first batch, 102 to 201 the second batch, 202 the close
frame) is the first to fail, the frames written are the first `k - 1` frames of
the full script, the writes attempted are its first `k` frames and no more, one
error line with the index and the error text is logged, and the counter is not
incremented. -/
theorem C3_first_failing_write (addr : String) (env : Env) (i k : Nat) (err : String)
    (hk1 : 1 ≤ k) (hk2 : k ≤ 202) (hd : env.dial = none)
    (hprev : ∀ m, m + 1 < k → env.write m = none) (hfail : env.write (k - 1) = some err) :
    written (clientTask addr env i) = (fullScript env i).take (k - 1) ∧
    attempted (clientTask addr env i) = (fullScript env i).take k ∧
    (attempted (clientTask addr env i)).length = k ∧
    (fullScript env i).length = 202 ∧
    (logged (clientTask addr env i)).filter LogLine.isError = [errorLine i k err] ∧
    (∃ what, (errorLine i k err).render =
      Nat.repr i ++ (": " ++ what ++ " error = ") ++ err ++ "\n") ∧
    increments (clientTask addr env i) = 0 := by
  obtain ⟨k, rfl⟩ : ∃ k0, k = k0 + 1 := ⟨k - 1, by omega⟩
  have hk : k < 2 + N + N := by rw [N_eq]; omega
  obtain ⟨h1, h2, h3, h4⟩ := fail_readings addr env i k err hd hk
    (fun m hm => hprev m (by omega)) (by simpa using hfail)
  have hlen : (fullScript env i).length = 202 := by rw [fullScript_length, N_eq]
  refine ⟨by simpa using h1, h2, ?_, hlen, h3, ?_, h4⟩
  · rw [h2, List.length_take, hlen]
    omega
  · by_cases e1 : k + 1 = 1
    · exact ⟨"write login", by simp only [errorLine, e1, if_true]; rfl⟩
    · by_cases e2 : k + 1 ≤ 1 + N + N
      · exact ⟨"write change", by simp only [errorLine, e1, e2, if_true, if_false]; rfl⟩
      · exact ⟨"close", by simp only [errorLine, e1, e2, if_false]; rfl⟩

/-- C3 holds of a concrete run: client 7 against a server that drops the
connection after the login, so that write number 2 is the first to fail. -/
theorem C3_first_failing_write_witness :
    (envDropped.dial = none ∧ envDropped.write 0 = none ∧
      envDropped.write (2 - 1) = some "broken pipe") ∧
    (written (clientTask "localhost:1337" envDropped 7) = (fullScript envDropped 7).take (2 - 1) ∧
    attempted (clientTask "localhost:1337" envDropped 7) = (fullScript envDropped 7).take 2 ∧
    (attempted (clientTask "localhost:1337" envDropped 7)).length = 2 ∧
    (fullScript envDropped 7).length = 202 ∧
    (logged (clientTask "localhost:1337" envDropped 7)).filter LogLine.isError =
      [errorLine 7 2 "broken pipe"] ∧
    (∃ what, (errorLine 7 2 "broken pipe").render =
      Nat.repr 7 ++ (": " ++ what ++ " error = ") ++ "broken pipe" ++ "\n") ∧
    increments (clientTask "localhost:1337" envDropped 7) = 0) :=
  ⟨⟨rfl, rfl, rfl⟩,
   C3_first_failing_write "localhost:1337" envDropped 7 2 "broken pipe" (by decide) (by decide)
     rfl (fun m hm => by have h0 : m = 0 := by omega
                         subst h0; rfl) rfl⟩

/-- C5: a task none of whose steps fails performs, in this order: the dial, the
login write, a sleep of 5 s, the 100 changes of the first batch each followed
by a sleep of 100 ms, a sleep of 60 s, the 100 changes of the second batch each
followed by a sleep of 1 s, a sleep of 60 s, the write of the normal-closure
close frame; the frames written are the 202 frames of the full script. -/
theorem C5_script_order (addr : String) (env : Env) (i : Nat) (h : env.allOk = true) :
    (clientTask addr env i).filter Action.isStep =
      [.dial (connectionString addr) true,
       .write (.json (loginEvent i (env.now 0))) true, .sleep 5000000000] ++
      (List.range 100).flatMap (fun j =>
        [.write (.json (firstChangeEvent i j (env.now (1 + j)))) true, .sleep 100000000]) ++
      [.sleep 60000000000] ++
      (List.range 100).flatMap (fun j =>
        [.write (.json (secondChangeEvent i j (env.now (101 + j)))) true, .sleep 1000000000]) ++
      [.sleep 60000000000, .write (.close 1000 "") true] ∧
    written (clientTask addr env i) =
      [.json (loginEvent i (env.now 0))] ++
      (List.range 100).map (fun j => .json (firstChangeEvent i j (env.now (1 + j)))) ++
      (List.range 100).map (fun j => .json (secondChangeEvent i j (env.now (101 + j)))) ++
      [.close 1000 ""] ∧
    (written (clientTask addr env i)).length = 202 ∧
    attempted (clientTask addr env i) = written (clientTask addr env i) ∧
    clientTask addr env i =
      [.dial (connectionString addr) true, .write (.json (loginEvent i (env.now 0))) true,
       .log (.loggedIn i), .sleep (5 * Second)] ++
      (List.range N).flatMap (firstRound env i) ++ [.sleep (1 * Minute)] ++
      (List.range N).flatMap (secondRound env i) ++
      [.sleep (1 * Minute), .write (.close CloseNormalClosure "") true, .addOk, .closeConn] := by
  have hw := ok_written addr env i h
  have ht := ok_task addr env i h
  refine ⟨?_, ?_, ?_, ?_, ht⟩
  · rw [ht]
    simp only [List.filter_append, filter_flatMap_rounds]
    rfl
  · rw [hw]
    rfl
  · rw [hw, fullScript_length, N_eq]
  · rw [hw, ht]
    simp only [attempted_append, attempted_firstRounds, attempted_secondRounds]
    simp [attempted, fullScript]

/-- C5 holds of a concrete run: client 7 against a server that accepts everything. -/
theorem C5_script_order_witness :
    envGood.allOk = true ∧
    (written (clientTask "localhost:1337" envGood 7)).length = 202 ∧
    attempted (clientTask "localhost:1337" envGood 7) =
      written (clientTask "localhost:1337" envGood 7) :=
  ⟨by decide, (C5_script_order "localhost:1337" envGood 7 (by decide)).2.2.1,
    (C5_script_order "localhost:1337" envGood 7 (by decide)).2.2.2.1⟩

/-- C4: every run can be carried on to the tally and has a bounded number of
moves; the last thing printed is then `<ok> / <n>` with `n` the number of
clients and `ok` the number of clients all of whose steps succeed, so
`0 ≤ ok ≤ n`; it is `n / n` when no step fails, and `0 / n` after exactly `n`
connect-error lines when every dial fails. -/
theorem C4_final_tally (n : Nat) (addr : String) (envs : Nat → Env) (sched : List Who)
    (w : World) (hrun : exec n addr envs sched (start addr) = some w) :
    (∃ rest w1, exec n addr envs (sched ++ rest) (start addr) = some w1 ∧ w1.exited = true) ∧
    sched.length ≤ movesLeft n addr envs (start addr) ∧
    (w.exited = true →
      w.events.getLast? = some (.main (.tally (successes n envs) n)) ∧
      (LogLine.tally (successes n envs) n).render =
        Nat.repr (successes n envs) ++ " / " ++ Nat.repr n ++ "\n" ∧
      successes n envs = ((List.range n).filter (fun k => (envs k).allOk)).length ∧
      successes n envs ≤ n ∧
      ((∀ k, k < n → (envs k).allOk = true) →
        w.events.getLast? = some (.main (.tally n n))) ∧
      ((∀ k, k < n → (envs k).dial ≠ none) →
        w.events.getLast? = some (.main (.tally 0 n)) ∧
        (w.events.filter Obs.isConnectError).length = n)) ∧
    (LogLine.tally 3 3).render = "3 / 3\n" := by
  have hinv := inv_exec n addr envs sched _ w (inv_start n addr envs) hrun
  refine ⟨?_, ?_, ?_, by decide⟩
  · obtain ⟨rest, w1, h1, h2⟩ := completion n addr envs _ w hinv (Nat.le_refl _)
    exact ⟨rest, w1, by rw [exec_append n addr envs sched rest _ w hrun]; exact h1, h2⟩
  · have := exec_moves n addr envs sched _ w hrun
    omega
  · intro he
    obtain ⟨hi, hr, pre, hev, _⟩ := hinv.done he
    have hok := final_ok n addr envs w hinv he
    have hlast : w.events.getLast? = some (.main (.tally (successes n envs) n)) := by
      rw [hev, List.getLast?_concat, hok]
    refine ⟨hlast, rfl, rfl, successes_le n envs, ?_, ?_⟩
    · intro hall
      rw [hlast, successes_all n envs hall]
    · intro hall
      have hnone : successes n envs = 0 :=
        successes_none n envs (fun k hk => by
          cases hd : (envs k).dial with
          | none => exact absurd hd (hall k hk)
          | some err => simp [Env.allOk, hd])
      refine ⟨by rw [hlast, hnone]; rfl, ?_⟩
      have h1 := hinv.weight connectErrorWeight
      rw [pendingWeight_zero _ _ hr, hi, launched_connectError addr envs n hall,
        obsWeight_connectError] at h1
      exact h1

/-- C4 holds of a concrete run: one client whose connection is refused, run to the tally `0 / 1`. -/
theorem C4_final_tally_witness :
    exec 1 "localhost:1337" (fun _ => envRefused) refusedSchedule (start "localhost:1337") =
      some refusedWorld ∧
    refusedWorld.exited = true ∧
    refusedWorld.events.getLast? =
      some (.main (.tally (successes 1 (fun _ => envRefused)) 1)) ∧
    (refusedWorld.events.filter Obs.isConnectError).length = 1 :=
  ⟨rfl, rfl,
   ((C4_final_tally 1 "localhost:1337" (fun _ => envRefused) refusedSchedule refusedWorld
      rfl).2.2.1 rfl).1,
   ((C4_final_tally 1 "localhost:1337" (fun _ => envRefused) refusedSchedule refusedWorld
      rfl).2.2.1 rfl).2.2.2.2.2 (fun _ _ => by simp [envRefused]) |>.2⟩

/-- C9: whatever the interleaving, when a tally line is among the observations
nothing comes after it, every one of the `n` clients has been launched, has
performed its whole task before it and has run its `wg.Done()`, and no move of
`main` or of a client is possible any more. -/
theorem C9_tally_after_all_tasks (n : Nat) (addr : String) (envs : Nat → Env)
    (sched : List Who) (w : World) (pre post : List Obs) (x : Obs)
    (hrun : exec n addr envs sched (start addr) = some w)
    (hx : x.isTally = true) (hsplit : w.events = pre ++ x :: post) :
    post = [] ∧
    x = .main (.tally w.ok n) ∧
    (∀ o, o ∈ pre → o.isTally = false) ∧
    (∀ k, k < n → actionsOf k pre = clientTask addr (envs k) k) ∧
    (∀ k, n ≤ k → actionsOf k pre = []) ∧
    w.tasks = List.replicate n none ∧
    w.wg = 0 ∧
    (∀ who, step n addr envs who w = none) := by
  have hinv := inv_exec n addr envs sched _ w (inv_start n addr envs) hrun
  have he : w.exited = true := by
    cases hex : w.exited with
    | true => rfl
    | false =>
      have := hinv.noTally hex x (by rw [hsplit]; simp)
      rw [hx] at this
      exact absurd this (by simp)
  obtain ⟨hi, hr, pre1, hev, hpre1⟩ := hinv.done he
  obtain ⟨hpost, hpre, hxt⟩ := tally_last x _ hx pre1 pre post hpre1 (by rw [← hev, hsplit])
  subst hpre
  have hact : ∀ k, actionsOf k w.events = actionsOf k pre := by
    intro k
    rw [hev, actionsOf_append]
    simp [actionsOf]
  have htasks : w.tasks = List.replicate n none := by
    have := running_zero_eq w.tasks hr
    rwa [hinv.len, hi] at this
  refine ⟨hpost, hxt, hpre1, ?_, ?_, htasks, ?_, ?_⟩
  · intro k hk
    have h1 := hinv.acts k (by rw [hi]; exact hk)
    have h2 : w.tasks[k]?.getD none = none := by
      cases ht : w.tasks[k]? with
      | none => rfl
      | some t => simpa using running_zero_get w.tasks hr k t ht
    rw [h2, hact k] at h1
    simpa [pending] using h1
  · intro k hk
    rw [← hact k]
    exact hinv.idle k (by rw [hi]; exact hk)
  · rw [hinv.wg, hr]
    rfl
  · intro who
    cases who with
    | main => simp [step, he]
    | client k =>
      cases ht : w.tasks[k]? with
      | none => simp [step, ht]
      | some t =>
        have := running_zero_get w.tasks hr k t ht
        subst this
        simp [step, ht]

/-- C9 holds of a concrete run: one client whose connection is refused, run to the tally. -/
theorem C9_tally_after_all_tasks_witness :
    (exec 1 "localhost:1337" (fun _ => envRefused) refusedSchedule (start "localhost:1337") =
      some refusedWorld ∧
     (Obs.main (.tally 0 1)).isTally = true ∧
     refusedWorld.events =
       [.main (.connectionString "wss://localhost:1337"),
        .client 0 (.dial "wss://localhost:1337" false),
        .client 0 (.log (.connectError 0 "connection refused"))] ++
       Obs.main (.tally 0 1) :: []) ∧
    (([] : List Obs) = [] ∧
     Obs.main (.tally 0 1) = .main (.tally refusedWorld.ok 1) ∧
     (∀ o, o ∈ [Obs.main (.connectionString "wss://localhost:1337"),
        .client 0 (.dial "wss://localhost:1337" false),
        .client 0 (.log (.connectError 0 "connection refused"))] → o.isTally = false) ∧
     (∀ k, k < 1 → actionsOf k [Obs.main (.connectionString "wss://localhost:1337"),
        .client 0 (.dial "wss://localhost:1337" false),
        .client 0 (.log (.connectError 0 "connection refused"))] =
          clientTask "localhost:1337" envRefused k) ∧
     (∀ k, 1 ≤ k → actionsOf k [Obs.main (.connectionString "wss://localhost:1337"),
        .client 0 (.dial "wss://localhost:1337" false),
        .client 0 (.log (.connectError 0 "connection refused"))] = []) ∧
     refusedWorld.tasks = List.replicate 1 none ∧
     refusedWorld.wg = 0 ∧
     (∀ who, step 1 "localhost:1337" (fun _ => envRefused) who refusedWorld = none)) :=
  ⟨⟨rfl, rfl, rfl⟩,
   C9_tally_after_all_tasks 1 "localhost:1337" (fun _ => envRefused) refusedSchedule
     refusedWorld _ [] (.main (.tally 0 1)) rfl rfl rfl⟩

/-- C10: the username assignment is injective: the usernames of two client
indices, whatever natural numbers they are, are equal only if the indices are,
and so are the usernames of their login events. -/
theorem C10_username_injective (i k : Nat) :
    (USERNAME i = USERNAME k ↔ i = k) ∧
    (∀ t1 t2, (loginEvent i t1).username = (loginEvent k t2).username ↔ i = k) ∧
    USERNAME i = "__test_" ++ Nat.repr i :=
  ⟨⟨USERNAME_injective i k, fun h => by rw [h]⟩,
   fun _ _ => ⟨USERNAME_injective i k, fun h => by rw [h]; rfl⟩, rfl⟩

/-! ## The JSON text of the payloads -/

theorem jsonEscapeChar_digit (c : Char) (h : isDigit c = true) : jsonEscapeChar c = [c] := by
  have hn : 48 ≤ c.toNat ∧ c.toNat ≤ 57 := by simpa [isDigit] using h
  have h1 : ¬ c = '"' := fun e => by subst e; exact absurd h (by decide)
  have h2 : ¬ c = '\\' := fun e => by subst e; exact absurd h (by decide)
  have h3 : ¬ c = '\n' := fun e => by subst e; exact absurd h (by decide)
  have h4 : ¬ c = '\r' := fun e => by subst e; exact absurd h (by decide)
  have h5 : ¬ c = '\t' := fun e => by subst e; exact absurd h (by decide)
  have h6 : ¬ c = '<' := fun e => by subst e; exact absurd h (by decide)
  have h7 : ¬ c = '>' := fun e => by subst e; exact absurd h (by decide)
  have h8 : ¬ c = '&' := fun e => by subst e; exact absurd h (by decide)
  have h9 : ¬ (c.toNat < 32 ∨ c = '<' ∨ c = '>' ∨ c = '&') := by
    rintro (e | e | e | e)
    · omega
    · exact h6 e
    · exact h7 e
    · exact h8 e
  have h10 : ¬ c.toNat = 0x2028 := by omega
  have h11 : ¬ c.toNat = 0x2029 := by omega
  simp only [jsonEscapeChar, h1, h2, h3, h4, h5, h9, h10, h11, if_false]

theorem flatMap_escape_digits (l : List Char) (h : ∀ c, c ∈ l → isDigit c = true) :
    l.flatMap jsonEscapeChar = l := by
  induction l with
  | nil => rfl
  | cons c l ih =>
    rw [List.flatMap_cons, jsonEscapeChar_digit c (h c (List.mem_cons_self c l)),
      ih (fun d hd => h d (List.mem_cons_of_mem c hd))]
    rfl

/-- The JSON string of a fixed text followed by a decimal rendering, when the
fixed text needs no escape. -/
theorem jsonString_text_number (s : String) (n : Nat)
    (hs : s.data.flatMap jsonEscapeChar = s.data) :
    jsonString (s ++ fmtD n) = "\"" ++ s ++ fmtD n ++ "\"" := by
  apply String.ext
  simp only [jsonString, String.data_append, List.flatMap_append, hs,
    flatMap_escape_digits _ (fmtD_digits n), List.append_assoc]

theorem marshalLoginMsg_text (i : Nat) :
    marshalLoginMsg { username := USERNAME i, sessionID := SESSION_ID } =
      "\x7b\"username\":\"__test_" ++ Nat.repr i ++ "\",\"session_id\":\"__bench_test\"\x7d" := by
  have h1 : jsonString (USERNAME i) = "\"" ++ "__test_" ++ fmtD i ++ "\"" :=
    jsonString_text_number "__test_" i (by decide)
  have h2 : jsonString SESSION_ID = "\"__bench_test\"" := by decide
  simp only [marshalLoginMsg, h1, h2]
  apply String.ext
  simp only [String.data_append, List.append_assoc, fmtD]
  rfl

theorem jsonString_message (i j : Nat) :
    jsonString ("message (" ++ fmtD i ++ ", " ++ fmtD j ++ ")") =
      "\"message (" ++ fmtD i ++ ", " ++ fmtD j ++ ")\"" := by
  have h1 : "message (".data.flatMap jsonEscapeChar = "message (".data := by decide
  have h2 : ", ".data.flatMap jsonEscapeChar = ", ".data := by decide
  have h3 : ")".data.flatMap jsonEscapeChar = ")".data := by decide
  apply String.ext
  simp only [jsonString, String.data_append, List.flatMap_append, h1, h2, h3,
    flatMap_escape_digits _ (fmtD_digits _), List.append_assoc]
  rfl

theorem marshalChangeMsg_text (i j : Nat) :
    marshalChangeMsg (firstChangeMsg i j) =
      "\x7b\"id\":" ++ Nat.repr i ++
      ",\"action\":\"insert\",\"start\":\x7b\"row\":0,\"column\":0\x7d," ++
      "\"end\":\x7b\"row\":1,\"column\":0\x7d,\"lines\":[\"message (" ++
      Nat.repr i ++ ", " ++ Nat.repr j ++ ")\",\"\"]\x7d" := by
  have h1 := jsonString_message i j
  have h2 : jsonString "insert" = "\"insert\"" := by decide
  have h3 : jsonString "" = "\"\"" := by decide
  have h4 : marshalRange { row := 0, column := 0 } = "\x7b\"row\":0,\"column\":0\x7d" := by
    decide
  have h5 : marshalRange { row := 1, column := 0 } = "\x7b\"row\":1,\"column\":0\x7d" := by
    decide
  have h6 : jsonInt (i : Int) = Nat.repr i := rfl
  simp only [marshalChangeMsg, firstChangeMsg, List.map_cons, List.map_nil, jsonElems, h1, h2,
    h3, h4, h5, h6]
  apply String.ext
  simp only [String.data_append, List.append_assoc, fmtD]
  rfl

theorem attempted_head (addr : String) (env : Env) (i : Nat) (hd : env.dial = none) :
    (attempted (clientTask addr env i)).head? = some (.json (loginEvent i (env.now 0))) := by
  rcases first_failure env.write (2 + N + N) with hall | ⟨k, err, hk, hprev, hfail⟩
  · rw [ok_task addr env i ((allOk_iff env).mpr ⟨hd, hall⟩)]
    rfl
  · rw [(fail_readings addr env i k err hd hk hprev hfail).2.1]
    simp [fullScript]

theorem fullScript_get_first (env : Env) (i j : Nat) (hj : j < N) :
    (fullScript env i)[1 + j]? = some (.json (firstChangeEvent i j (env.now (1 + j)))) := by
  have h := fullScript_take_first env i (j + 1) hj
  have h1 : (fullScript env i)[1 + j]? = ((fullScript env i).take (1 + (j + 1)))[1 + j]? := by
    rw [List.getElem?_take_of_lt (by omega)]
  rw [h1, h, Nat.add_comm 1 j, List.getElem?_cons_succ, List.getElem?_map,
    List.getElem?_range (Nat.lt_succ_self j)]
  simp [Nat.add_comm]

theorem fullScript_get_second (env : Env) (i j : Nat) (hj : j < N) :
    (fullScript env i)[1 + N + j]? =
      some (.json (secondChangeEvent i j (env.now (1 + N + j)))) := by
  have h := fullScript_take_second env i (j + 1) hj
  have h1 : (fullScript env i)[1 + N + j]? =
      ((fullScript env i).take (1 + N + (j + 1)))[1 + N + j]? := by
    rw [List.getElem?_take_of_lt (by omega)]
  rw [h1, h, show 1 + N + j = (N + j) + 1 by omega, List.getElem?_cons_succ,
    List.getElem?_append_right (by simp), List.getElem?_map]
  simp only [List.length_map, List.length_range, Nat.add_sub_cancel_left]
  rw [List.getElem?_range (Nat.lt_succ_self j), show N + j + 1 = 1 + N + j by omega]
  rfl

/-- C6: for a client `i` and a position `j`, the payload built in the first
batch and the one built in the second batch are both the `ChangeMsg` with id
present and equal to `i`, action `insert`, start (0, 0), end (1, 0) and the two
lines `message (<i>, <j>)` and the empty string; the envelopes carrying them
have event kind `change`, they are the frames at positions `1 + j` and
`101 + j` of a full run, and every `change` frame a task ever hands to the
connection carries such a payload. -/
theorem C6_change_payload (i j : Nat) :
    firstChangeMsg i j =
      { id := some (i : Int), action := "insert", start := { row := 0, column := 0 },
        stop := { row := 1, column := 0 },
        lines := ["message (" ++ Nat.repr i ++ ", " ++ Nat.repr j ++ ")", ""] } ∧
    secondChangeMsg i j = firstChangeMsg i j ∧
    (firstChangeMsg i j).lines.length = 2 ∧
    (firstChangeMsg i j).lines[1]? = some "" ∧
    (firstChangeMsg i j).id ≠ none ∧
    (firstChangeMsg 0 j).id = some 0 ∧
    (∀ ts, (firstChangeEvent i j ts).event = "change" ∧
      (firstChangeEvent i j ts).data = marshalChangeMsg (firstChangeMsg i j) ∧
      (secondChangeEvent i j ts).event = "change" ∧
      (secondChangeEvent i j ts).data = marshalChangeMsg (secondChangeMsg i j)) ∧
    marshalChangeMsg (firstChangeMsg i j) =
      "\x7b\"id\":" ++ Nat.repr i ++
      ",\"action\":\"insert\",\"start\":\x7b\"row\":0,\"column\":0\x7d," ++
      "\"end\":\x7b\"row\":1,\"column\":0\x7d,\"lines\":[\"message (" ++
      Nat.repr i ++ ", " ++ Nat.repr j ++ ")\",\"\"]\x7d" ∧
    (∀ (addr : String) (env : Env), j < 100 → env.allOk = true →
      (written (clientTask addr env i))[1 + j]? =
        some (.json (firstChangeEvent i j (env.now (1 + j)))) ∧
      (written (clientTask addr env i))[101 + j]? =
        some (.json (secondChangeEvent i j (env.now (101 + j))))) ∧
    (∀ (addr : String) (env : Env) (e : Event),
      Frame.json e ∈ attempted (clientTask addr env i) → e.event = "change" →
      ∃ m, m < 100 ∧ e.data = marshalChangeMsg
        { id := some (i : Int), action := "insert", start := { row := 0, column := 0 },
          stop := { row := 1, column := 0 },
          lines := ["message (" ++ Nat.repr i ++ ", " ++ Nat.repr m ++ ")", ""] }) := by
  refine ⟨rfl, rfl, rfl, rfl, by simp [firstChangeMsg], rfl, fun _ => ⟨rfl, rfl, rfl, rfl⟩,
    marshalChangeMsg_text i j, ?_, ?_⟩
  · intro addr env hj hok
    rw [ok_written addr env i hok]
    exact ⟨fullScript_get_first env i j hj, fullScript_get_second env i j hj⟩
  · intro addr env e hmem hev
    have h := attempted_mem_fullScript addr env i _ hmem
    simp only [fullScript, List.mem_append, List.mem_singleton, List.mem_map, List.mem_range,
      Frame.json.injEq] at h
    rcases h with ((h | ⟨m, hm, h⟩) | ⟨m, hm, h⟩) | h
    · rw [h] at hev
      have hev : "login" = "change" := hev
      exact absurd hev (by decide)
    · exact ⟨m, hm, by rw [← h]; rfl⟩
    · exact ⟨m, hm, by rw [← h]; rfl⟩
    · exact absurd h (by simp)

/-- C6 holds of a concrete run: position 5 of both batches of client 7 in a run without failure. -/
theorem C6_change_payload_witness :
    (5 < 100 ∧ envGood.allOk = true) ∧
    (written (clientTask "localhost:1337" envGood 7))[1 + 5]? =
      some (.json (firstChangeEvent 7 5 (envGood.now (1 + 5)))) ∧
    (written (clientTask "localhost:1337" envGood 7))[101 + 5]? =
      some (.json (secondChangeEvent 7 5 (envGood.now (101 + 5)))) :=
  ⟨⟨by decide, by decide⟩,
   (C6_change_payload 7 5).2.2.2.2.2.2.2.2.1 "localhost:1337" envGood (by decide) (by decide)⟩

/-- C8: the first frame a connected client hands to the connection is its login
event, the envelope with username `__test_<i>`, session `__bench_test`, event
`login` and, as data, the JSON encoding of the `LoginMsg` with the same
username and session id; the session id is the same constant for every client. -/
theorem C8_login_event (addr : String) (env : Env) (i : Nat) (hd : env.dial = none) :
    (attempted (clientTask addr env i)).head? = some (.json (loginEvent i (env.now 0))) ∧
    loginEvent i (env.now 0) =
      { username := "__test_" ++ Nat.repr i, session := "__bench_test", event := "login",
        data := marshalLoginMsg
          { username := "__test_" ++ Nat.repr i, sessionID := "__bench_test" },
        ts := env.now 0 } ∧
    (loginEvent i (env.now 0)).data =
      "\x7b\"username\":\"__test_" ++ Nat.repr i ++ "\",\"session_id\":\"__bench_test\"\x7d" ∧
    (∀ (k : Nat) (t : Int), (loginEvent k t).session = SESSION_ID) ∧
    SESSION_ID = "__bench_test" :=
  ⟨attempted_head addr env i hd, rfl, marshalLoginMsg_text i, fun _ _ => rfl, rfl⟩

/-- C8 holds of a concrete run: client 7 against a server that drops the
connection after the login. -/
theorem C8_login_event_witness :
    envDropped.dial = none ∧
    (attempted (clientTask "localhost:1337" envDropped 7)).head? =
      some (.json (loginEvent 7 (envDropped.now 0))) ∧
    (loginEvent 7 (envDropped.now 0)).data =
      "\x7b\"username\":\"__test_" ++ Nat.repr 7 ++ "\",\"session_id\":\"__bench_test\"\x7d" :=
  ⟨rfl, (C8_login_event "localhost:1337" envDropped 7 rfl).1,
    (C8_login_event "localhost:1337" envDropped 7 rfl).2.2.1⟩

/-- C7, as stated, fails: the timestamps are readings of the wall clock, which
can be set back. In the run of client 7 against `envSteppedBack` the login
event and the first change event are both written, and the timestamp of the
login is not less than the timestamp of the change. -/
theorem C7_timestamps_counterexample :
    written (clientTask "localhost:1337" envSteppedBack 7) =
      [.json (loginEvent 7 (envSteppedBack.now 0)),
       .json (firstChangeEvent 7 0 (envSteppedBack.now 1))] ∧
    (loginEvent 7 (envSteppedBack.now 0)).event = "login" ∧
    (firstChangeEvent 7 0 (envSteppedBack.now 1)).event = "change" ∧
    ¬ ((loginEvent 7 (envSteppedBack.now 0)).ts <
        (firstChangeEvent 7 0 (envSteppedBack.now 1)).ts) := by
  refine ⟨by decide, rfl, rfl, ?_⟩
  show ¬ ((1700000010000000000 : Int) < 1700000005000000000 + ((1 : Nat) : Int))
  decide

/-- C7, amended: the timestamp of the login event is the first reading of the
clock and the timestamp of the change at position `j` of the first (second)
batch is the reading number `1 + j` (`101 + j`); so, when the readings of the
clock taken by the task are strictly increasing, the timestamp of the login
event the client sends is strictly less than the timestamp of every change
event it hands to the connection. -/
theorem C7_timestamps_amended (addr : String) (env : Env) (i : Nat)
    (hmono : ∀ a b : Nat, a < b → env.now a < env.now b) :
    (loginEvent i (env.now 0)).ts = env.now 0 ∧
    (∀ j, (firstChangeEvent i j (env.now (1 + j))).ts = env.now (1 + j) ∧
      (secondChangeEvent i j (env.now (101 + j))).ts = env.now (101 + j)) ∧
    (env.dial = none →
      (attempted (clientTask addr env i)).head? = some (.json (loginEvent i (env.now 0)))) ∧
    (∀ e : Event, Frame.json e ∈ attempted (clientTask addr env i) → e.event = "change" →
      (loginEvent i (env.now 0)).ts < e.ts) := by
  refine ⟨rfl, fun _ => ⟨rfl, rfl⟩, attempted_head addr env i, ?_⟩
  intro e hmem hev
  have h := attempted_mem_fullScript addr env i _ hmem
  simp only [fullScript, List.mem_append, List.mem_singleton, List.mem_map, List.mem_range,
    Frame.json.injEq] at h
  rcases h with ((h | ⟨m, _, h⟩) | ⟨m, _, h⟩) | h
  · rw [h] at hev
    have hev : "login" = "change" := hev
    exact absurd hev (by decide)
  · rw [← h]
    exact hmono 0 (1 + m) (by omega)
  · rw [← h]
    exact hmono 0 (1 + N + m) (by omega)
  · exact absurd h (by simp)

/-- C7, amended, holds of a concrete run: client 7 against a server that drops
the connection after the login, with a clock whose reading number `k` is `k`. -/
theorem C7_timestamps_amended_witness :
    (∀ a b : Nat, a < b → envDropped.now a < envDropped.now b) ∧
    Frame.json (firstChangeEvent 7 0 (envDropped.now 1)) ∈
      attempted (clientTask "localhost:1337" envDropped 7) ∧
    (loginEvent 7 (envDropped.now 0)).ts < (firstChangeEvent 7 0 (envDropped.now 1)).ts :=
  ⟨fun a b h => by simpa [envDropped] using h, by decide,
   (C7_timestamps_amended "localhost:1337" envDropped 7
      (fun a b h => by simpa [envDropped] using h)).2.2.2 _ (by decide) rfl⟩

end Bench
